import Mathlib

/-!
# pyhpx example programs: a verification development

Shallow embedding of the C example drivers of the repository
(`examples/kmeans/kmeans.c`, `examples/passing/ctest/contiguous.c`,
`experiment/dotproduct/dotproduct.c`).

Conventions of the embedding.

* A C object reached through a pointer is a `Buf`: a map from the byte offset
  (counted from the pointer) to the byte stored there.  `memset` and `memcpy`
  act on bytes; `int` and `float` elements are read and written as four
  little-endian bytes (`ld32` / `st32`).  A `Buf` has no end: the bytes past
  the extent of the object are whatever lies after it in memory, and a claim
  about bounds compares an index with the extent (`sizeof_centers`, `2 * K`).
* An `int` is a 32-bit two's complement word; arithmetic wraps modulo `2^32`.
* A `float` is an IEEE-754 binary32 bit pattern kept in a `Nat`; the arithmetic
  (`fadd`, `fsub`, `fmul`, `fdiv`, `flt`, `int_to_float`) rounds every operation
  to nearest, ties to even, in `float` precision (no wider intermediate, no
  fused multiply-add).
* Calls into the HPX runtime made by a driver are recorded, in program order,
  as a list of events.  Output to `stderr`/`stdout` is not recorded.
-/

namespace Kmeans

/-! ## Constants of `kmeans.c` -/

/-- Macro `#define DATA_SIZE 10000000` -/
def DATA_SIZE : Int := 10000000

/-- Macro `#define DATA_PER_NODE 1000000` -/
def DATA_PER_NODE : Int := 1000000

/-- Macro `#define K 100` -/
def K : Nat := 100

/-- Macro `#define MAX_ITERATION 10` -/
def MAX_ITERATION : Int := 10

/-- Size `sizeof(int)` -/
def sizeof_int : Nat := 4

/-- Size `sizeof(float)` -/
def sizeof_float : Nat := 4

/-! ## Byte buffers -/

/-- Memory as seen through a pointer: byte offset to byte. -/
abbrev Buf := Nat → Fin 256

/-- The low eight bits of a number, as a byte. -/
def byte (n : Nat) : Fin 256 := ⟨n % 256, Nat.mod_lt n (by decide)⟩

/-- Library function `memset(s, c, n)`: the first `n` bytes become `(unsigned char)c`. -/
def memset (s : Buf) (c : Nat) (n : Nat) : Buf :=
  fun k => if k < n then byte c else s k

/-- Library function `memcpy(dest, src, n)`: the first `n` bytes of `dest` become those of `src`. -/
def memcpy (dest src : Buf) (n : Nat) : Buf :=
  fun k => if k < n then src k else dest k

/-- Read element `i` of an array of 4-byte elements (little-endian) as a 32-bit word. -/
def ld32 (b : Buf) (i : Nat) : Nat :=
  (b (4 * i)).val + 256 * (b (4 * i + 1)).val + 65536 * (b (4 * i + 2)).val
    + 16777216 * (b (4 * i + 3)).val

/-- Write the 32-bit word `w` to element `i` of an array of 4-byte elements. -/
def st32 (b : Buf) (i : Nat) (w : Nat) : Buf :=
  fun k =>
    if k = 4 * i then byte w
    else if k = 4 * i + 1 then byte (w / 256)
    else if k = 4 * i + 2 then byte (w / 65536)
    else if k = 4 * i + 3 then byte (w / 16777216)
    else b k

/-! ## 32-bit `int` -/

/-- The value of a 32-bit word read as a two's complement `int`. -/
def toInt32 (w : Nat) : Int :=
  if w % 4294967296 < 2147483648 then ((w % 4294967296 : Nat) : Int)
  else ((w % 4294967296 : Nat) : Int) - 4294967296

/-- The 32-bit word of an integer (two's complement, wrapping). -/
def ofInt32 (v : Int) : Nat := (v % 4294967296).toNat

/-- The `int` an integer wraps to in 32-bit two's complement arithmetic. -/
def wrap32 (v : Int) : Int := (v + 2147483648) % 4294967296 - 2147483648

/-- Read `b[i]` for `int *b`. -/
def ld_int (b : Buf) (i : Nat) : Int := toInt32 (ld32 b i)

/-- Write `b[i] = v` for `int *b`. -/
def st_int (b : Buf) (i : Nat) (v : Int) : Buf := st32 b i (ofInt32 v)

/-! ## Reduction operators of `kmeans.c` -/

/-- Function `set_zero_handler(data, bytes)`: `memset(data, 0, bytes)`. -/
def set_zero_handler (data : Buf) (bytes : Nat) : Buf :=
  memset data 0 bytes

/-- Function `sum_count_handler(lhs, rhs, bytes)`: `for (i = 0; i < K; i++) lhs[i] += rhs[i];`
on `int` arrays.  The result is the new content of `lhs`; `rhs` is `const`. -/
def sum_count_handler (lhs rhs : Buf) (_bytes : Nat) : Buf :=
  (List.range K).foldl (fun lhs i => st_int lhs i (ld_int lhs i + ld_int rhs i)) lhs

/-- Modelled from the spec: the Reduction control object of §4.4, whose runtime
implementation (`hpx_lco_reduce_new`, `hpx_lco_set`) is not among the sources.
`reset_operator(buffer, size)` initialises the payload once, then
`combine_operator(accumulator, incoming, size)` is applied once per arrival, in
arrival order. -/
def reduction (reset : Buf → Nat → Buf) (combine : Buf → Buf → Nat → Buf)
    (size : Nat) (acc0 : Buf) (arrivals : List Buf) : Buf :=
  arrivals.foldl (fun acc p => combine acc p size) (reset acc0 size)

/-- The count reduction of `main_handler`:
`hpx_lco_reduce_new(num_node, K*sizeof(int), set_zero_action, sum_count_action)`. -/
def count_reduce (acc0 : Buf) (arrivals : List Buf) : Buf :=
  reduction set_zero_handler sum_count_handler (K * sizeof_int) acc0 arrivals

/-! ## IEEE-754 binary32 `float` -/

/-- Sign bit (bit 31) of a `float`. -/
def f_sign (x : Nat) : Nat := x / 2147483648 % 2

/-- Biased exponent field (bits 30..23). -/
def f_exp (x : Nat) : Nat := x / 8388608 % 256

/-- Fraction field (bits 22..0). -/
def f_frac (x : Nat) : Nat := x % 8388608

/-- Bits 30..0: the magnitude, ordered like the absolute value. -/
def f_mag (x : Nat) : Nat := x % 2147483648

/-- The quiet NaN `0x7FC00000`, the result of every invalid operation. -/
def f_nan : Nat := 2143289344

/-- Infinity with sign `s`: `0x7F800000` or `0xFF800000`. -/
def f_inf (s : Nat) : Nat := s * 2147483648 + 2139095040

/-- Zero with sign `s`. -/
def f_zero (s : Nat) : Nat := s * 2147483648

/-- Exponent field all ones, fraction non-zero. -/
def f_isNaN (x : Nat) : Bool := decide (2139095040 < f_mag x)

/-- Exponent field all ones, fraction zero. -/
def f_isInf (x : Nat) : Bool := decide (f_mag x = 2139095040)

/-- Plus or minus zero. -/
def f_isZero (x : Nat) : Bool := decide (f_mag x = 0)

/-- Absolute value of a finite `float` in units of `2^-149`:
`frac` for a subnormal, `(2^23 + frac) * 2^(exp-1)` otherwise. -/
def f_units (x : Nat) : Nat :=
  if f_exp x = 0 then f_frac x else (f_frac x + 8388608) * 2 ^ (f_exp x - 1)

/-- Value of a finite `float` in units of `2^-149`. -/
def f_signed (x : Nat) : Int :=
  if f_sign x = 1 then -((f_units x : Nat) : Int) else ((f_units x : Nat) : Int)

/-- Bisection for the least `t` with `N / (D * 2^t) < 2^24`: the steps are powers of two
in decreasing order, and `t` moves up by a step whenever the quotient at `t + step - 1` is
still too large. -/
def f_shift (N D : Nat) : List Nat → Nat → Nat
  | [], t => t
  | b :: bs, t =>
    if N / (D * 2 ^ (t + b - 1)) < 16777216 then f_shift N D bs t
    else f_shift N D bs (t + b)

/-- The steps `2^(k-1), ..., 2, 1` of a bisection over `2^k` candidates. -/
def f_steps : Nat → List Nat
  | 0 => []
  | k + 1 => 2 ^ k :: f_steps k

/-- Round the exact magnitude `N / D` (in units of `2^-149`, `D > 0`) to the nearest
`float`, ties to even, and attach the sign `s`; overflow gives infinity.  With `t` the
least shift for which the quotient `q` fits in 24 bits (`t <= 255`), the result has the
bits `t * 2^23 + q`: a subnormal or the least normal binade for `t = 0`, exponent field
`t + 1` otherwise, and a carry out of the significand moves to the next binade. -/
def f_round (s N D : Nat) : Nat :=
  let t := f_shift N D (f_steps 8) 0
  let q := N / (D * 2 ^ t)
  let r := N % (D * 2 ^ t)
  let m := if D * 2 ^ t < 2 * r ∨ (2 * r = D * 2 ^ t ∧ q % 2 = 1) then q + 1 else q
  let mag := t * 8388608 + m
  s * 2147483648 + (if 2139095040 ≤ mag then 2139095040 else mag)

/-- Operator `a + b` on `float`. -/
def fadd (a b : Nat) : Nat :=
  if f_isNaN a ∨ f_isNaN b then f_nan
  else if f_isInf a then (if f_isInf b ∧ f_sign a ≠ f_sign b then f_nan else f_inf (f_sign a))
  else if f_isInf b then f_inf (f_sign b)
  else if f_signed a + f_signed b = 0 then
    (if f_sign a = 1 ∧ f_sign b = 1 then f_zero 1 else f_zero 0)
  else f_round (if f_signed a + f_signed b < 0 then 1 else 0)
    (f_signed a + f_signed b).natAbs 1

/-- Operator `-a` on `float`: the sign bit flipped. -/
def fneg (a : Nat) : Nat :=
  if f_sign a = 1 then f_mag a else f_mag a + 2147483648

/-- Operator `a - b` on `float`. -/
def fsub (a b : Nat) : Nat := fadd a (fneg b)

/-- Operator `a * b` on `float`. -/
def fmul (a b : Nat) : Nat :=
  if f_isNaN a ∨ f_isNaN b then f_nan
  else if f_isInf a ∨ f_isInf b then
    (if f_isZero a ∨ f_isZero b then f_nan else f_inf ((f_sign a + f_sign b) % 2))
  else f_round ((f_sign a + f_sign b) % 2) (f_units a * f_units b) (2 ^ 149)

/-- Operator `a / b` on `float`. -/
def fdiv (a b : Nat) : Nat :=
  if f_isNaN a ∨ f_isNaN b then f_nan
  else if f_isInf a then (if f_isInf b then f_nan else f_inf ((f_sign a + f_sign b) % 2))
  else if f_isInf b then f_zero ((f_sign a + f_sign b) % 2)
  else if f_isZero b then
    (if f_isZero a then f_nan else f_inf ((f_sign a + f_sign b) % 2))
  else f_round ((f_sign a + f_sign b) % 2) (f_units a * 2 ^ 149) (f_units b)

/-- Position of a non-NaN `float` in the order of the reals (both zeros at `0`). -/
def f_key (x : Nat) : Int :=
  if f_sign x = 1 then -((f_mag x : Nat) : Int) else ((f_mag x : Nat) : Int)

/-- Operator `a < b` on `float`: false when either is a NaN. -/
def flt (a b : Nat) : Bool :=
  !f_isNaN a && !f_isNaN b && decide (f_key a < f_key b)

/-- Conversion `(float)v` of an `int`. -/
def int_to_float (v : Int) : Nat :=
  f_round (if v < 0 then 1 else 0) (v.natAbs * 2 ^ 149) 1

/-- The `float` nearest to the non-negative rational `num / den` (a decimal literal such
as `3.75f` is `f_lit 375 100`). -/
def f_lit (num den : Nat) : Nat := f_round 0 (num * 2 ^ 149) den

/-! ## HPX runtime calls made by a driver, in program order -/

/-- Target of an invocation. -/
inductive Target
  /-- Address `hpx_addr_add(base, offset, bsize)` for the one allocation `base` of the driver. -/
  | gas (offset bsize : Int)
  /-- Address `HPX_THERE(rank)`. -/
  | there (rank : Int)
  deriving DecidableEq

/-- Return values of a handler. -/
inductive HpxStatus
  | HPX_SUCCESS
  | HPX_ERROR
  deriving DecidableEq

/-- A call into the runtime; `A` names the actions, `L` the control objects of a program. -/
inductive Ev (A L : Type)
  /-- Runtime call `hpx_gas_alloc_cyclic(n, bsize, 0)` -/
  | gas_alloc_cyclic (n bsize : Int)
  /-- Runtime call `l = hpx_lco_and_new(inputs)` -/
  | lco_and_new (l : L) (inputs : Int)
  /-- Runtime call `l = hpx_lco_future_new(size)` -/
  | lco_future_new (l : L) (size : Int)
  /-- Runtime call `l = hpx_lco_reduce_new(inputs, size, id, op)` -/
  | lco_reduce_new (l : L) (inputs : Int) (size : Int) (id op : A)
  /-- Runtime call `hpx_call(target, action, result, args...)` (then `lsync` is `HPX_NULL`) or
  `hpx_call_async(target, action, lsync, result, args...)`. -/
  | call (target : Target) (action : A) (lsync result : L) (ints : List Int) (lcos : List L)
  /-- Runtime call `hpx_lco_wait(l)` -/
  | lco_wait (l : L)
  /-- Runtime call `hpx_lco_get(l, size, out)` -/
  | lco_get (l : L) (size : Int)
  /-- Runtime call `hpx_lco_set_lsync(l, size, payload, HPX_NULL)` -/
  | lco_set (l : L) (size : Int) (payload : Buf)
  /-- Runtime call `hpx_lco_delete_sync(l)` -/
  | lco_delete_sync (l : L)
  /-- Runtime call `hpx_gas_memget_sync(to, from, size)` -/
  | gas_memget_sync (size : Int)
  /-- Runtime call `hpx_bcast_rsync(action, payload, size)` -/
  | bcast_rsync (action : A) (payload : Buf) (size : Int)
  /-- Runtime call `hpx_exit(...)` -/
  | exit

/-- Is the event a call of action `a`? -/
def Ev.isCall {A L : Type} [DecidableEq A] (a : A) : Ev A L → Bool
  | .call _ b _ _ _ _ => decide (b = a)
  | _ => false

/-- Is the event a wait on `l`? -/
def Ev.isWait {A L : Type} [DecidableEq L] (l : L) : Ev A L → Bool
  | .lco_wait m => decide (m = l)
  | _ => false

/-- Is the event a synchronous broadcast of action `a`? -/
def Ev.isBcast {A L : Type} [DecidableEq A] (a : A) : Ev A L → Bool
  | .bcast_rsync b _ _ => decide (b = a)
  | _ => false

/-- Is the event a set on `l`? -/
def Ev.isSet {A L : Type} [DecidableEq L] (l : L) : Ev A L → Bool
  | .lco_set m _ _ => decide (m = l)
  | _ => false

/-- Is the event the creation of a reduction `l` with `inputs` expected arrivals? -/
def Ev.isReduceNew {A L : Type} [DecidableEq L] (l : L) (inputs : Int) : Ev A L → Bool
  | .lco_reduce_new m n _ _ _ => decide (m = l) && decide (n = inputs)
  | _ => false

/-- Target of a call event. -/
def Ev.target? {A L : Type} : Ev A L → Option Target
  | .call t _ _ _ _ _ => some t
  | _ => none

/-- Completion target (`result`) of a call event. -/
def Ev.result? {A L : Type} : Ev A L → Option L
  | .call _ _ _ r _ _ => some r
  | _ => none

/-- Every event of `tr` that satisfies `q` has an earlier event that satisfies `p`. -/
def PrecededBy {E : Type} (p q : E → Bool) (tr : List E) : Prop :=
  ∀ (pre : List E) (e : E) (post : List E),
    tr = pre ++ e :: post → q e = true → ∃ w, w ∈ pre ∧ p w = true

/-! ## `kmeans.c`: the remaining handlers -/

/-- Size `sizeof(centers)` for `static float centers[K][2]`. -/
def sizeof_centers : Nat := K * 2 * sizeof_float

/-- Index, in `float`s from `&a[0][0]`, of `a[r][c]` for `float a[K][2]`. -/
def idx2 (r c : Nat) : Nat := 2 * r + c

/-- Function `sum_position_handler(lhs, rhs, bytes)`:
`for (i = 0; i < K; i++) { lhs[i][0] += rhs[i][0]; lhs[i][1] += rhs[i][1]; }`
on `float [K][2]` arrays. -/
def sum_position_handler (lhs rhs : Buf) (_bytes : Nat) : Buf :=
  (List.range K).foldl (fun lhs i =>
    let lhs1 := st32 lhs (idx2 i 0) (fadd (ld32 lhs (idx2 i 0)) (ld32 rhs (idx2 i 0)))
    st32 lhs1 (idx2 i 1) (fadd (ld32 lhs1 (idx2 i 1)) (ld32 rhs (idx2 i 1)))) lhs

/-- The position reduction of `main_handler`:
`hpx_lco_reduce_new(num_node, K*2*sizeof(float), set_zero_action, sum_position_action)`. -/
def position_reduce (acc0 : Buf) (arrivals : List Buf) : Buf :=
  reduction set_zero_handler sum_position_handler (K * 2 * sizeof_float) acc0 arrivals

/-- Function `broadcast_centers_handler(buffer, bytes)`: `memcpy(centers, buffer, bytes)`, then
`return HPX_SUCCESS`.  Takes the node's `centers` and gives its new content. -/
def broadcast_centers_handler (centers buffer : Buf) (bytes : Nat) : Buf × HpxStatus :=
  (memcpy centers buffer bytes, HpxStatus.HPX_SUCCESS)

/-- Function `generate_data_handler(datachunk, size)`:
`for (i = 0; i < size; i++) { data[2*i] = ...rand()...; data[2*i+1] = ...rand()...; }`.
`sample n` is the `float` the `n`-th call of `rand()` is turned into. -/
def generate_data_handler (datachunk : Buf) (size : Int) (sample : Nat → Nat) :
    Buf × HpxStatus :=
  ((List.range size.toNat).foldl (fun data i =>
      st32 (st32 data (2 * i) (sample (2 * i))) (2 * i + 1) (sample (2 * i + 1))) datachunk,
   HpxStatus.HPX_SUCCESS)

/-- Function `calc_distance_sq(pt0, pt1)`:
`(pt0[0]-pt1[0])*(pt0[0]-pt1[0]) + (pt0[1]-pt1[1])*(pt0[1]-pt1[1])`.
A `const float*` is a buffer together with an index counted in `float`s. -/
def calc_distance_sq (m0 : Buf) (p0 : Nat) (m1 : Buf) (p1 : Nat) : Nat :=
  fadd
    (fmul (fsub (ld32 m0 p0) (ld32 m1 p1)) (fsub (ld32 m0 p0) (ld32 m1 p1)))
    (fmul (fsub (ld32 m0 (p0 + 1)) (ld32 m1 (p1 + 1)))
      (fsub (ld32 m0 (p0 + 1)) (ld32 m1 (p1 + 1))))

/-- Index, in `float`s from `(float *)centers`, of the row `&centers[r]` of
`float centers[K][2]`: a row is two `float`s. -/
def row_offset (r : Nat) : Nat := 2 * r

/-- One pass of the inner loop of `kmeans_handler` for point `i`, at index `j`:
`currdist = calc_distance_sq(&data[2*i], (float *)&centers[2*j]);`
`if (currdist < mindist) { mincluster = j; mindist = currdist; }`.
The state is `(mincluster, mindist)`. -/
def nearest_step (centers data : Buf) (i : Nat) (st : Nat × Nat) (j : Nat) : Nat × Nat :=
  let currdist := calc_distance_sq data (2 * i) centers (row_offset (2 * j))
  if flt currdist st.2 then (j, currdist) else st

/-- The inner loop of `kmeans_handler` for point `i`:
`mincluster = 0; mindist = calc_distance_sq(&data[2*i], (float *)centers);`
`for (j = 1; j < K; j++) ...`.  Gives the final `(mincluster, mindist)`. -/
def nearest (centers data : Buf) (i : Nat) : Nat × Nat :=
  (List.range' 1 (K - 1)).foldl (nearest_step centers data i)
    (0, calc_distance_sq data (2 * i) centers 0)

/-- The arrays of `kmeans_handler`: `int count[K]`, `float sum[K][2]` and the block
`label` returned by `malloc(size*sizeof(int))`. -/
structure KmState where
  count : Buf
  sum : Buf
  label : Buf

/-- One pass of the outer loop of `kmeans_handler`, for point `i`:
`count[mincluster] += 1; sum[mincluster][0] += data[2*i];`
`sum[mincluster][1] += data[2*i+1]; label[i] = mincluster;`. -/
def assign_step (centers data : Buf) (st : KmState) (i : Nat) : KmState :=
  let mincluster := (nearest centers data i).1
  let sum1 := st32 st.sum (idx2 mincluster 0)
    (fadd (ld32 st.sum (idx2 mincluster 0)) (ld32 data (2 * i)))
  { count := st_int st.count mincluster (ld_int st.count mincluster + 1)
    sum := st32 sum1 (idx2 mincluster 1)
      (fadd (ld32 sum1 (idx2 mincluster 1)) (ld32 data (2 * i + 1)))
    label := st_int st.label i mincluster }

/-- A partial `sum` array whose row of cluster 0 is `(x, y)`, all other rows `+0.0`. -/
def cluster0_sum (x y : Nat) : Buf :=
  st32 (st32 (fun _ => 0) (idx2 0 0) x) (idx2 0 1) y

/-- A partial `count` array whose entry of cluster 0 is `n`, all other entries `0`. -/
def cluster0_count (n : Int) : Buf :=
  st_int (fun _ => 0) 0 n

/-- A buffer holding the two `float`s `x`, `y` at its start, zero bytes after them. -/
def float_pair (x y : Nat) : Buf :=
  st32 (st32 (fun _ => 0) 0 x) 1 y

/-- An image of `centers` in which every row `centers[r]`, `r < K`, is `(x, y)`; the
bytes after the array are the buffer `beyond`. -/
def rows_all (x y : Nat) (beyond : Buf) : Buf :=
  fun k => if k < sizeof_centers then float_pair x y (k % 8) else beyond k

/-- The image `m` with row `centers[r]` replaced by `(x, y)`. -/
def set_row (m : Buf) (r x y : Nat) : Buf :=
  st32 (st32 m (idx2 r 0) x) (idx2 r 1) y

/-- Control objects of `main_handler`.  The two reductions are created anew in every
iteration; the index is the value of `num_iteration` at their creation. -/
inductive Lco
  /-- The null address `HPX_NULL`. -/
  | null
  | generate_data_complete
  | position_reduce (iteration : Nat)
  | count_reduce (iteration : Nat)
  deriving DecidableEq

/-- Actions of `kmeans.c`. -/
inductive Action
  | main_action
  | generate_data_action
  | kmeans_action
  | broadcast_centers_action
  | set_zero_action
  | sum_position_action
  | sum_count_action
  deriving DecidableEq

/-- What an execution of `kmeans_handler` leaves behind. -/
structure KmResult where
  /-- The local arrays when the handler returns. -/
  state : KmState
  /-- The runtime calls of the handler, in program order. -/
  sets : List (Ev Action Lco)
  /-- The value returned. -/
  status : HpxStatus

/-- Function `kmeans_handler(datachunk, size, position_reduce, count_reduce)`, run on a node whose
global array is `centers`.  `uninit` is the content of `count`, `sum` and of the
`malloc` block before the handler initialises them. -/
def kmeans_handler (centers datachunk : Buf) (size : Int) (position_reduce count_reduce : Lco)
    (uninit : KmState) : KmResult :=
  let count0 := memset uninit.count 0 (K * sizeof_int)
  let sum0 := memset uninit.sum 0 (K * 2 * sizeof_float)
  let label0 := (List.range size.toNat).foldl (fun label i => st_int label i (-1)) uninit.label
  let st := (List.range size.toNat).foldl (assign_step centers datachunk)
    { count := count0, sum := sum0, label := label0 }
  { state := st
    sets := [Ev.lco_set position_reduce ((K * 2 * sizeof_float : Nat) : Int) st.sum,
             Ev.lco_set count_reduce ((K * sizeof_int : Nat) : Int) st.count]
    status := HpxStatus.HPX_SUCCESS }

/-! ## `kmeans.c`: `main_handler` -/

/-- Function `ceil` of `math.h`, on the exactly represented values met here. -/
def c_ceil (x : ℚ) : Int := ⌈x⌉

/-- Local `num_node = ceil(DATA_SIZE/DATA_PER_NODE)`: the quotient is the `int` division of C
(truncating), converted to `double` for `ceil` and back to `int`. -/
def num_node (data_size data_per_node : Int) : Int :=
  c_ceil ((Int.tdiv data_size data_per_node : Int) : ℚ)

/-- Local `num_data_per_node = DATA_PER_NODE` -/
def num_data_per_node (data_per_node : Int) : Int := data_per_node

/-- Local `num_data_last_node = DATA_SIZE - (num_node - 1)*DATA_PER_NODE` -/
def num_data_last_node (data_size data_per_node : Int) : Int :=
  data_size - (num_node data_size data_per_node - 1) * data_per_node

/-- The `size` argument `main_handler` passes in the call for node index `i`:
`if (i < num_node - 1) ... &num_data_per_node ... else ... &num_data_last_node ...`. -/
def node_size (data_size data_per_node : Int) (i : Nat) : Int :=
  if (i : Int) < num_node data_size data_per_node - 1 then num_data_per_node data_per_node
  else num_data_last_node data_size data_per_node

/-- The sizes passed to the nodes `0 .. num_node-1`, in the order of the loop
`for (i = 0; i < num_node; i++)`. -/
def node_sizes (data_size data_per_node : Int) : List Int :=
  (List.range (num_node data_size data_per_node).toNat).map (node_size data_size data_per_node)

/-- The target of the call for node index `i`:
`hpx_addr_add(data, i*DATA_PER_NODE*sizeof(float)*2, DATA_PER_NODE*sizeof(float)*2)`. -/
def node_target (data_per_node : Int) (i : Nat) : Target :=
  Target.gas ((i : Int) * data_per_node * (sizeof_float : Nat) * 2)
    (data_per_node * (sizeof_float : Nat) * 2)

/-- The centroid update of `main_handler`:
`for (i = 0; i < K; i++) { centers[i][0] = positions[i][0] / count[i];`
`centers[i][1] = positions[i][1] / count[i]; }`, `count[i]` converted to `float`. -/
def update_centers (centers positions count : Buf) : Buf :=
  (List.range K).foldl (fun centers i =>
    st32
      (st32 centers (idx2 i 0) (fdiv (ld32 positions (idx2 i 0)) (int_to_float (ld_int count i))))
      (idx2 i 1) (fdiv (ld32 positions (idx2 i 1)) (int_to_float (ld_int count i)))) centers

/-- What the runtime hands to `main_handler`: the bytes `hpx_gas_memget_sync` copies into
`centers`, and the contents of `positions` and `count` after the two `hpx_lco_get` of the
iteration with the given `num_iteration`. -/
structure Env where
  memget : Buf
  positions : Nat → Buf
  count : Nat → Buf

/-- The variables of `main_handler` and the runtime calls made so far. -/
structure MainState where
  centers : Buf
  num_changes : Int
  num_iteration : Int
  trace : List (Ev Action Lco)

/-- The runtime calls of `main_handler` before its `while` loop (lines 30-43). -/
def main_prologue (data_size data_per_node : Int) : List (Ev Action Lco) :=
  [Ev.gas_alloc_cyclic (num_node data_size data_per_node)
      (data_per_node * (sizeof_float : Nat) * 2),
   Ev.lco_and_new Lco.generate_data_complete (num_node data_size data_per_node)]
  ++ (List.range (num_node data_size data_per_node).toNat).map (fun i =>
      Ev.call (node_target data_per_node i) Action.generate_data_action Lco.null
        Lco.generate_data_complete [node_size data_size data_per_node i] [])
  ++ [Ev.lco_wait Lco.generate_data_complete,
      Ev.lco_delete_sync Lco.generate_data_complete,
      Ev.gas_memget_sync ((sizeof_centers : Nat) : Int)]

/-- The `kmeans_action` calls of one iteration (lines 52-59), for the reductions
`pr` and `cr`. -/
def kmeans_calls (data_size data_per_node : Int) (pr cr : Lco) : List (Ev Action Lco) :=
  (List.range (num_node data_size data_per_node).toNat).map (fun i =>
    Ev.call (node_target (num_data_per_node data_per_node) i) Action.kmeans_action Lco.null
      Lco.null [node_size data_size data_per_node i] [pr, cr])

/-- The runtime calls of one iteration of the `while` loop (lines 49-69), entered with
`num_iteration = it` and the given `centers`. -/
def main_iteration_events (data_size data_per_node : Int) (centers : Buf) (it : Nat) :
    List (Ev Action Lco) :=
  [Ev.bcast_rsync Action.broadcast_centers_action centers ((sizeof_centers : Nat) : Int),
   Ev.lco_reduce_new (Lco.position_reduce it) (num_node data_size data_per_node)
     ((K * 2 * sizeof_float : Nat) : Int) Action.set_zero_action Action.sum_position_action,
   Ev.lco_reduce_new (Lco.count_reduce it) (num_node data_size data_per_node)
     ((K * sizeof_int : Nat) : Int) Action.set_zero_action Action.sum_count_action]
  ++ kmeans_calls data_size data_per_node (Lco.position_reduce it) (Lco.count_reduce it)
  ++ [Ev.lco_get (Lco.position_reduce it) ((K * 2 * sizeof_float : Nat) : Int),
      Ev.lco_get (Lco.count_reduce it) ((K * sizeof_int : Nat) : Int),
      Ev.lco_delete_sync (Lco.position_reduce it),
      Ev.lco_delete_sync (Lco.count_reduce it)]

/-- The body of the `while` loop of `main_handler` (lines 48-70). -/
def main_body (env : Env) (data_size data_per_node : Int) (st : MainState) : MainState :=
  { centers := update_centers st.centers (env.positions st.num_iteration.toNat)
      (env.count st.num_iteration.toNat)
    num_changes := st.num_changes
    num_iteration := st.num_iteration + 1
    trace := st.trace
      ++ main_iteration_events data_size data_per_node st.centers st.num_iteration.toNat }

/-- Loop `while (num_iteration < MAX_ITERATION && num_changes > 0) body`, run for at most
`fuel` passes. -/
def main_loop (env : Env) (data_size data_per_node : Int) : Nat → MainState → MainState
  | 0, st => st
  | fuel + 1, st =>
    if st.num_iteration < MAX_ITERATION ∧ st.num_changes > 0
    then main_loop env data_size data_per_node fuel (main_body env data_size data_per_node st)
    else st

/-- Driver `main_handler`, for the constants `DATA_SIZE` and `DATA_PER_NODE` given: the state
when `hpx_exit(HPX_SUCCESS)` is reached.  `centers0` is the content of the global `centers`
when the driver starts. -/
def main_handler_with (env : Env) (data_size data_per_node : Int) (centers0 : Buf) :
    MainState :=
  let st := main_loop env data_size data_per_node MAX_ITERATION.toNat
    { centers := memcpy centers0 env.memget sizeof_centers
      num_changes := 1
      num_iteration := 0
      trace := main_prologue data_size data_per_node }
  { st with trace := st.trace ++ [Ev.exit] }

/-- Driver `main_handler` of `kmeans.c` as compiled, with `DATA_SIZE` and `DATA_PER_NODE`. -/
def main_handler (env : Env) (centers0 : Buf) : MainState :=
  main_handler_with env DATA_SIZE DATA_PER_NODE centers0

/-- What a node holds when a `kmeans_action` call reaches it: its copy of `centers`, the
data block the target address is pinned to, and the content of the handler's arrays before
initialisation. -/
structure NodeMem where
  centers : Buf
  datachunk : Buf
  uninit : KmState

/-- Modelled from the spec: the Dispatcher of §4.3 (the runtime is not among the sources)
runs the registered handler once per invocation, on the node owning the target, with the
arguments of the call.  For a `kmeans_action` call this gives the runtime calls of that
execution of `kmeans_handler`; other events run no handler here. -/
def run_kmeans_call (node : Target → NodeMem) : Ev Action Lco → List (Ev Action Lco)
  | .call t Action.kmeans_action _ _ [size] [pr, cr] =>
    (kmeans_handler (node t).centers (node t).datachunk size pr cr (node t).uninit).sets
  | _ => []

/-- Number of `set` operations the control object `l` receives from the handlers run for
the calls in `evs`. -/
def sets_received (node : Target → NodeMem) (evs : List (Ev Action Lco)) (l : Lco) : Nat :=
  ((evs.flatMap (run_kmeans_call node)).filter (Ev.isSet l)).length

/-- A buffer of zero bytes: read as `float`s every entry is `+0.0`, read as `int`s `0`. -/
def zeros : Buf := fun _ => 0

/-- The state of `main_handler` when its `while` loop is entered (lines 43-46): `centers`
filled by `hpx_gas_memget_sync`, `num_changes = 1`, `num_iteration = 0`. -/
def main_start (env : Env) (data_size data_per_node : Int) (centers0 : Buf) : MainState :=
  { centers := memcpy centers0 env.memget sizeof_centers
    num_changes := 1
    num_iteration := 0
    trace := main_prologue data_size data_per_node }

/-- The partial results `(sum, count)` set in one iteration when every node holds the same
memory `node`: one execution of `kmeans_handler` per node, with the sizes `sizes` that
`main_handler` passes, in the order of the calls. -/
def node_partials (node : NodeMem) (it : Nat) (sizes : List Int) : List (Buf × Buf) :=
  sizes.map (fun size =>
    ((kmeans_handler node.centers node.datachunk size (Lco.position_reduce it)
        (Lco.count_reduce it) node.uninit).state.sum,
     (kmeans_handler node.centers node.datachunk size (Lco.position_reduce it)
        (Lco.count_reduce it) node.uninit).state.count))

/-- Modelled from the spec: `get` on a complete Reduction (§4.4; the runtime is not among
the sources) yields the accumulated payload.  This is what the runtime hands to
`main_handler` when, in every iteration, the partials `partials` arrive in this order at
the two reductions, whose buffers held `acc_p` and `acc_c` before the reset. -/
def env_of_partials (memget acc_p acc_c : Buf) (partials : List (Buf × Buf)) : Env :=
  { memget := memget
    positions := fun _ => position_reduce acc_p (partials.map Prod.fst)
    count := fun _ => count_reduce acc_c (partials.map Prod.snd) }

/-- A node on which every data point and every center is `(0.0, 0.0)`.  The bytes after
the array `centers` are zero as well; the assignment does not depend on them, since no
distance is less than the distance `0.0` to `centers[0]`. -/
def zero_node : NodeMem :=
  { centers := zeros
    datachunk := zeros
    uninit := { count := zeros, sum := zeros, label := zeros } }

/-- What the runtime hands to `main_handler` in the run in which every data point is
`(0.0, 0.0)`: the first `K` points as initial centers, and for the first iteration the
reduction of the partial results of the `num_node` handlers, one per node with the sizes
`main_handler` passes.  The later iterations are given the same payloads. -/
def zero_run_env : Env :=
  env_of_partials zeros zeros zeros
    (node_partials zero_node 0 (node_sizes DATA_SIZE DATA_PER_NODE))

end Kmeans

/-! ## `examples/passing/ctest/contiguous.c` -/

namespace Passing

open Kmeans (Ev Target HpxStatus)

/-- Macro `#define NUM_TRY 10` -/
def NUM_TRY : Int := 10

/-- Macro `#define BLOCK_SIZE (1<<30)` -/
def BLOCK_SIZE : Int := 1073741824

/-- Actions of the program. -/
inductive Action
  | job_action
  | worker_action
  | main_action
  deriving DecidableEq

/-- Control objects of the program: the gate of `main_action_handler` and the futures
the workers create (`n` tells them apart). -/
inductive Lco
  /-- The null address `HPX_NULL`. -/
  | null
  | and_lco
  | buffer_completed (n : Nat)
  deriving DecidableEq

/-- Function `job_action_handler(buf, n)`: `return HPX_SUCCESS;`. -/
def job_action_handler : HpxStatus := HpxStatus.HPX_SUCCESS

/-- Function `worker_action_handler(current_rank, num_rank)`, run with continuation target `cc`
(what `hpx_thread_current_cont_target()` returns); `buffer_completed` is the future
`hpx_lco_future_new(0)` returns.  Gives the runtime calls made and the value returned. -/
def worker_action_handler (current_rank num_rank : Int) (cc buffer_completed : Lco) :
    List (Ev Action Lco) × HpxStatus :=
  ([Ev.lco_future_new buffer_completed 0,
    Ev.call (Target.there (Int.tmod (current_rank + 1) num_rank)) Action.job_action
      buffer_completed cc [Int.tdiv BLOCK_SIZE NUM_TRY] [],
    Ev.lco_wait buffer_completed],
   HpxStatus.HPX_SUCCESS)

/-- The runtime calls of `main_action_handler` when `hpx_get_num_ranks()` is `total_rank`. -/
def main_action_handler (total_rank : Int) : List (Ev Action Lco) :=
  [Ev.lco_and_new Lco.and_lco (total_rank * NUM_TRY)]
  ++ (List.range total_rank.toNat).flatMap (fun i =>
      (List.range NUM_TRY.toNat).map (fun _ =>
        Ev.call (Target.there (i : Int)) Action.worker_action Lco.null Lco.and_lco
          [(i : Int), total_rank] []))
  ++ [Ev.lco_wait Lco.and_lco, Ev.exit]

/-- Expected count of the gate: the argument of `hpx_lco_and_new`. -/
def gate_expected (total_rank : Int) : Int := total_rank * NUM_TRY

/-- Modelled from the spec: the Dispatcher of §4.3 (the runtime is not among the sources).
The completion of an invocation is reported exactly once to the control object supplied
as its completion target.  For the `n`-th `worker_action` call of a trace this lists the
control objects that receive a completion: the completion target of every `job_action`
call the worker issues (`job_action_handler` returns at once), then the worker's own
continuation target when the worker returns.  Other events report nothing. -/
def completions (n : Nat) : Ev Action Lco → List Lco
  | .call _ Action.worker_action _ result [current_rank, num_rank] _ =>
    ((worker_action_handler current_rank num_rank result (Lco.buffer_completed n)).1.filterMap
      (fun e => if Ev.isCall Action.job_action e then Ev.result? e else none))
    ++ [result]
  | _ => []

/-- Every completion routed to a control object during a run of `main_action_handler`,
call by call. -/
def arrivals (total_rank : Int) : List Lco :=
  ((main_action_handler total_rank).enum.map (fun p => completions p.1 p.2)).flatten

/-- Number of signals the gate receives. -/
def gate_signals (total_rank : Int) : Nat := (arrivals total_rank).count Lco.and_lco

end Passing

/-! ## `experiment/dotproduct/dotproduct.c` -/

namespace Dotproduct

open Kmeans (Ev Target HpxStatus)

/-- Macro `#define DIM 1024` -/
def DIM : Int := 1024

/-- Size `sizeof(double)` -/
def sizeof_double : Int := 8

/-- Actions of the program. -/
inductive Action
  | _main
  | _init
  | sum_init
  | sum_op
  | prod
  deriving DecidableEq

/-- Control objects of `_main_action`. -/
inductive Lco
  /-- The null address `HPX_NULL`. -/
  | null
  | copy_data_lco
  | sum_lco
  deriving DecidableEq

/-- Function `custom_addr_add(addr, block_no)`:
`hpx_addr_add(addr, block_no*sizeof(double)*2, sizeof(double)*2)`. -/
def custom_addr_add (block_no : Int) : Target :=
  Target.gas (block_no * sizeof_double * 2) (sizeof_double * 2)

/-- The runtime calls of `_main_action(x, y)`, in program order; `x i` and `y i` are the
bits of the `double`s `x[i]` and `y[i]`.  The arguments of an `_init` call are the
offset of `current` and the two `double`s. -/
def _main_action (x y : Nat → Int) : List (Ev Action Lco) :=
  [Ev.gas_alloc_cyclic DIM (sizeof_double * 2),
   Ev.lco_and_new Lco.copy_data_lco DIM]
  ++ (List.range DIM.toNat).map (fun (i : Nat) =>
      Ev.call (custom_addr_add (i : Int)) Action._init Lco.null Lco.copy_data_lco
        [(i : Int) * sizeof_double * 2, x i, y i] [])
  ++ [Ev.lco_reduce_new Lco.sum_lco DIM sizeof_double Action.sum_init Action.sum_op]
  ++ (List.range DIM.toNat).map (fun (i : Nat) =>
      Ev.call (custom_addr_add (i : Int)) Action.prod Lco.null Lco.null [] [Lco.sum_lco])
  ++ [Ev.lco_get Lco.sum_lco sizeof_double, Ev.exit]

end Dotproduct

namespace Kmeans

/-! ## Lemmas on buffers and words -/

theorem byte_val (n : Nat) : (byte n).val = n % 256 := rfl

theorem ld32_lt (b : Buf) (i : Nat) : ld32 b i < 4294967296 := by
  unfold ld32
  have h0 := (b (4 * i)).isLt
  have h1 := (b (4 * i + 1)).isLt
  have h2 := (b (4 * i + 2)).isLt
  have h3 := (b (4 * i + 3)).isLt
  omega

theorem ld32_st32_same (b : Buf) (i w : Nat) : ld32 (st32 b i w) i = w % 4294967296 := by
  simp only [ld32, st32, byte_val]
  have e1 : ¬ (4 * i + 1 = 4 * i) := by omega
  have e2 : ¬ (4 * i + 2 = 4 * i) := by omega
  have e3 : ¬ (4 * i + 2 = 4 * i + 1) := by omega
  have e4 : ¬ (4 * i + 3 = 4 * i) := by omega
  have e5 : ¬ (4 * i + 3 = 4 * i + 1) := by omega
  have e6 : ¬ (4 * i + 3 = 4 * i + 2) := by omega
  simp only [if_true, if_false, e1, e2, e3, e4, e5, e6, byte_val]
  omega

theorem st32_other_byte (b : Buf) (i w k : Nat) (h : k < 4 * i ∨ 4 * i + 4 ≤ k) :
    st32 b i w k = b k := by
  unfold st32
  have e0 : ¬ (k = 4 * i) := by omega
  have e1 : ¬ (k = 4 * i + 1) := by omega
  have e2 : ¬ (k = 4 * i + 2) := by omega
  have e3 : ¬ (k = 4 * i + 3) := by omega
  simp only [e0, e1, e2, e3, if_false]

theorem ld32_st32_other (b : Buf) (i j w : Nat) (h : j ≠ i) :
    ld32 (st32 b i w) j = ld32 b j := by
  unfold ld32
  rw [st32_other_byte b i w (4 * j) (by omega), st32_other_byte b i w (4 * j + 1) (by omega),
    st32_other_byte b i w (4 * j + 2) (by omega), st32_other_byte b i w (4 * j + 3) (by omega)]

/-- Every byte of a buffer is determined by the word that contains it. -/
theorem byte_of_ld32 (b : Buf) (k : Nat) :
    b k = byte (ld32 b (k / 4) / 256 ^ (k % 4)) := by
  apply Fin.ext
  rw [byte_val]
  unfold ld32
  have h0 := (b (4 * (k / 4))).isLt
  have h1 := (b (4 * (k / 4) + 1)).isLt
  have h2 := (b (4 * (k / 4) + 2)).isLt
  have h3 := (b (4 * (k / 4) + 3)).isLt
  have hk : k % 4 = 0 ∨ k % 4 = 1 ∨ k % 4 = 2 ∨ k % 4 = 3 := by omega
  rcases hk with hk | hk | hk | hk
  · have e : k = 4 * (k / 4) := by omega
    rw [hk]
    conv_lhs => rw [e]
    simp only [pow_zero, Nat.div_one]
    omega
  · have e : k = 4 * (k / 4) + 1 := by omega
    rw [hk]
    conv_lhs => rw [e]
    simp only [pow_one]
    omega
  · have e : k = 4 * (k / 4) + 2 := by omega
    rw [hk]
    conv_lhs => rw [e]
    norm_num
    omega
  · have e : k = 4 * (k / 4) + 3 := by omega
    rw [hk]
    conv_lhs => rw [e]
    norm_num
    omega

theorem toInt32_ofInt32 (v : Int) : toInt32 (ofInt32 v) = wrap32 v := by
  unfold toInt32 ofInt32 wrap32
  have h : ((v % 4294967296).toNat : Int) = v % 4294967296 :=
    Int.toNat_of_nonneg (Int.emod_nonneg v (by decide))
  have h2 : (((v % 4294967296).toNat % 4294967296 : Nat) : Int) = v % 4294967296 := by
    rw [Int.natCast_mod, h]
    omega
  split
  · rename_i hlt
    rw [h2]
    have : v % 4294967296 < 2147483648 := by
      have := (@Int.ofNat_lt ((v % 4294967296).toNat % 4294967296) 2147483648).mpr hlt
      rw [h2] at this
      exact_mod_cast this
    omega
  · rename_i hge
    rw [h2]
    have : ¬ v % 4294967296 < 2147483648 := by
      intro hc
      apply hge
      have hc2 : (((v % 4294967296).toNat % 4294967296 : Nat) : Int) < ((2147483648 : Nat) : Int) := by
        rw [h2]
        exact_mod_cast hc
      exact Int.ofNat_lt.mp hc2
    omega

theorem toInt32_range (w : Nat) : -2147483648 ≤ toInt32 w ∧ toInt32 w < 2147483648 := by
  unfold toInt32
  split <;> omega

theorem wrap32_id (v : Int) (h : -2147483648 ≤ v ∧ v < 2147483648) : wrap32 v = v := by
  unfold wrap32
  omega

theorem wrap32_add_left (a b : Int) : wrap32 (wrap32 a + b) = wrap32 (a + b) := by
  unfold wrap32
  omega

theorem ld_int_st_int_same (b : Buf) (i : Nat) (v : Int) :
    ld_int (st_int b i v) i = wrap32 v := by
  unfold ld_int st_int
  rw [ld32_st32_same]
  have hlt : ofInt32 v < 4294967296 := by
    unfold ofInt32
    have := Int.emod_lt_of_pos v (show (0 : Int) < 4294967296 by decide)
    have := Int.emod_nonneg v (show (4294967296 : Int) ≠ 0 by decide)
    omega
  rw [Nat.mod_eq_of_lt hlt, toInt32_ofInt32]

theorem ld_int_st_int_other (b : Buf) (i j : Nat) (v : Int) (h : j ≠ i) :
    ld_int (st_int b i v) j = ld_int b j := by
  unfold ld_int st_int
  rw [ld32_st32_other b i j _ h]

theorem ld32_congr (a b : Buf) (i : Nat) (h : ∀ k, 4 * i ≤ k → k < 4 * i + 4 → a k = b k) :
    ld32 a i = ld32 b i := by
  unfold ld32
  rw [h (4 * i) (by omega) (by omega), h (4 * i + 1) (by omega) (by omega),
    h (4 * i + 2) (by omega) (by omega), h (4 * i + 3) (by omega) (by omega)]

theorem ld_int_congr (a b : Buf) (i : Nat) (h : ∀ k, 4 * i ≤ k → k < 4 * i + 4 → a k = b k) :
    ld_int a i = ld_int b i := by
  unfold ld_int
  rw [ld32_congr a b i h]

/-- Two buffers holding the same `int` at an index hold the same word there. -/
theorem ld32_eq_of_ld_int_eq (a b : Buf) (i j : Nat) (h : ld_int a i = ld_int b j) :
    ld32 a i = ld32 b j := by
  unfold ld_int toInt32 at h
  have ha := ld32_lt a i
  have hb := ld32_lt b j
  split at h <;> split at h <;> omega

/-- The loop of `sum_count_handler`, run for its first `n` indices. -/
theorem sum_count_loop (rhs : Buf) (n : Nat) (lhs : Buf) :
    (∀ i, i < n →
      ld_int ((List.range n).foldl
        (fun lhs i => st_int lhs i (ld_int lhs i + ld_int rhs i)) lhs) i
        = wrap32 (ld_int lhs i + ld_int rhs i)) ∧
    (∀ k, 4 * n ≤ k →
      (List.range n).foldl
        (fun lhs i => st_int lhs i (ld_int lhs i + ld_int rhs i)) lhs k = lhs k) := by
  induction n with
  | zero =>
    refine ⟨fun i hi => absurd hi (Nat.not_lt_zero i), fun k _ => rfl⟩
  | succ n ih =>
    obtain ⟨ih1, ih2⟩ := ih
    rw [List.range_succ, List.foldl_append]
    simp only [List.foldl_cons, List.foldl_nil]
    constructor
    · intro i hi
      by_cases hin : i = n
      · subst hin
        rw [ld_int_st_int_same]
        rw [ld_int_congr _ lhs i (fun k hk _ => ih2 k hk)]
      · rw [ld_int_st_int_other _ _ _ _ hin]
        exact ih1 i (by omega)
    · intro k hk
      unfold st_int
      rw [st32_other_byte _ _ _ _ (by omega)]
      exact ih2 k (by omega)

theorem sum_count_handler_spec (lhs rhs : Buf) (bytes : Nat) :
    (∀ i, i < K → ld_int (sum_count_handler lhs rhs bytes) i
        = wrap32 (ld_int lhs i + ld_int rhs i)) ∧
    (∀ k, K * sizeof_int ≤ k → sum_count_handler lhs rhs bytes k = lhs k) := by
  obtain ⟨h1, h2⟩ := sum_count_loop rhs K lhs
  refine ⟨h1, fun k hk => h2 k ?_⟩
  unfold sizeof_int at hk
  omega

theorem set_zero_handler_int (data : Buf) (n i : Nat) (h : i < n) :
    ld_int (set_zero_handler data (n * sizeof_int)) i = 0 := by
  unfold ld_int ld32 set_zero_handler memset sizeof_int
  have h0 : 4 * i < n * 4 := by omega
  have h1 : 4 * i + 1 < n * 4 := by omega
  have h2 : 4 * i + 2 < n * 4 := by omega
  have h3 : 4 * i + 3 < n * 4 := by omega
  simp only [h0, h1, h2, h3, if_true, byte_val]
  decide

/-- The `int` held at index `i < K` by the count reduction, and its bytes past the payload. -/
theorem count_reduce_spec (acc0 : Buf) (arrivals : List Buf) :
    (∀ i, i < K → ld_int (count_reduce acc0 arrivals) i
        = wrap32 ((arrivals.map (fun p => ld_int p i)).sum)) ∧
    (∀ k, K * sizeof_int ≤ k → count_reduce acc0 arrivals k = acc0 k) := by
  unfold count_reduce reduction
  induction arrivals using List.reverseRecOn with
  | nil =>
    constructor
    · intro i hi
      simp only [List.foldl_nil, List.map_nil, List.sum_nil]
      rw [set_zero_handler_int acc0 K i hi]
      rfl
    · intro k hk
      simp only [List.foldl_nil]
      unfold set_zero_handler memset
      simp only [Nat.not_lt.mpr hk, if_false]
  | append_singleton ps p ih =>
    obtain ⟨ih1, ih2⟩ := ih
    rw [List.foldl_append]
    simp only [List.foldl_cons, List.foldl_nil]
    obtain ⟨s1, s2⟩ := sum_count_handler_spec
      (List.foldl (fun acc p => sum_count_handler acc p (K * sizeof_int))
        (set_zero_handler acc0 (K * sizeof_int)) ps) p (K * sizeof_int)
    constructor
    · intro i hi
      rw [s1 i hi, ih1 i hi, wrap32_add_left]
      simp only [List.map_append, List.map_cons, List.map_nil, List.sum_append,
        List.sum_cons, List.sum_nil, add_zero]
    · intro k hk
      rw [s2 k hk, ih2 k hk]

/-! ## Lemmas on `float` results and on the loops over `float [K][2]` arrays -/

theorem f_shift_cons (N D b : Nat) (bs : List Nat) (t : Nat) :
    f_shift N D (b :: bs) t
      = if N / (D * 2 ^ (t + b - 1)) < 16777216 then f_shift N D bs t
        else f_shift N D bs (t + b) := rfl

/-- The bisection finds the least shift: the quotient at the result fits in 24 bits unless
the result is the last candidate, and the quotient one shift below does not fit. -/
theorem f_shift_spec (N D : Nat) (k : Nat) :
    ∀ t : Nat, (t = 0 ∨ ¬ N / (D * 2 ^ (t - 1)) < 16777216) →
      (f_shift N D (f_steps k) t = 0 ∨
        ¬ N / (D * 2 ^ (f_shift N D (f_steps k) t - 1)) < 16777216) ∧
      (N / (D * 2 ^ (f_shift N D (f_steps k) t)) < 16777216 ∨
        f_shift N D (f_steps k) t = t + 2 ^ k - 1) ∧
      t ≤ f_shift N D (f_steps k) t := by
  induction k with
  | zero =>
    intro t ht
    refine ⟨ht, Or.inr ?_, le_refl t⟩
    show t = t + 2 ^ 0 - 1
    simp
  | succ k ih =>
    intro t ht
    have hpow : 0 < 2 ^ k := Nat.pos_of_ne_zero (by positivity)
    have e : f_steps (k + 1) = 2 ^ k :: f_steps k := rfl
    rw [e, f_shift_cons]
    split
    · rename_i hP
      obtain ⟨a, b, c⟩ := ih t ht
      refine ⟨a, ?_, c⟩
      rcases b with b | b
      · exact Or.inl b
      · left
        rw [b]
        exact hP
    · rename_i hP
      obtain ⟨a, b, c⟩ := ih (t + 2 ^ k) (Or.inr hP)
      refine ⟨a, ?_, by omega⟩
      rcases b with b | b
      · exact Or.inl b
      · right
        rw [b, pow_succ]
        omega

theorem f_round_lt (s N D : Nat) (hs : s ≤ 1) : f_round s N D < 4294967296 := by
  have h : ∀ mag : Nat, (if 2139095040 ≤ mag then 2139095040 else mag) ≤ 2139095040 := by
    intro mag
    split <;> omega
  unfold f_round
  exact Nat.lt_of_le_of_lt (Nat.add_le_add (Nat.mul_le_mul_right _ hs) (h _)) (by decide)

theorem f_sign_le (x : Nat) : f_sign x ≤ 1 := by
  unfold f_sign
  omega

theorem f_inf_lt (s : Nat) (hs : s ≤ 1) : f_inf s < 4294967296 := by
  unfold f_inf
  omega

theorem f_zero_lt (s : Nat) (hs : s ≤ 1) : f_zero s < 4294967296 := by
  unfold f_zero
  omega

theorem f_nan_lt : f_nan < 4294967296 := by decide

theorem fadd_lt (a b : Nat) : fadd a b < 4294967296 := by
  unfold fadd
  split
  · exact f_nan_lt
  · split
    · split
      · exact f_nan_lt
      · exact f_inf_lt _ (f_sign_le a)
    · split
      · exact f_inf_lt _ (f_sign_le b)
      · split
        · split
          · exact f_zero_lt 1 (le_refl 1)
          · exact f_zero_lt 0 (by decide)
        · apply f_round_lt
          split <;> decide

theorem fdiv_lt (a b : Nat) : fdiv a b < 4294967296 := by
  have hs : (f_sign a + f_sign b) % 2 ≤ 1 := by omega
  unfold fdiv
  split
  · exact f_nan_lt
  · split
    · split
      · exact f_nan_lt
      · exact f_inf_lt _ hs
    · split
      · exact f_zero_lt _ hs
      · split
        · split
          · exact f_nan_lt
          · exact f_inf_lt _ hs
        · exact f_round_lt _ _ _ hs

theorem ld32_st32_same_of_lt (b : Buf) (i w : Nat) (h : w < 4294967296) :
    ld32 (st32 b i w) i = w := by
  rw [ld32_st32_same, Nat.mod_eq_of_lt h]

/-- A loop that rewrites the rows `0 .. n-1` of a `float [..][2]` array, each entry from
its own old value. -/
theorem rows_loop_spec (g0 g1 : Nat → Nat → Nat) (n : Nat) (b : Buf) :
    (∀ i, i < n →
      ld32 ((List.range n).foldl (fun b i =>
          st32 (st32 b (idx2 i 0) (g0 i (ld32 b (idx2 i 0)))) (idx2 i 1)
            (g1 i (ld32 (st32 b (idx2 i 0) (g0 i (ld32 b (idx2 i 0)))) (idx2 i 1)))) b)
          (idx2 i 0) = g0 i (ld32 b (idx2 i 0)) % 4294967296 ∧
      ld32 ((List.range n).foldl (fun b i =>
          st32 (st32 b (idx2 i 0) (g0 i (ld32 b (idx2 i 0)))) (idx2 i 1)
            (g1 i (ld32 (st32 b (idx2 i 0) (g0 i (ld32 b (idx2 i 0)))) (idx2 i 1)))) b)
          (idx2 i 1) = g1 i (ld32 b (idx2 i 1)) % 4294967296) ∧
    (∀ k, 8 * n ≤ k →
      (List.range n).foldl (fun b i =>
          st32 (st32 b (idx2 i 0) (g0 i (ld32 b (idx2 i 0)))) (idx2 i 1)
            (g1 i (ld32 (st32 b (idx2 i 0) (g0 i (ld32 b (idx2 i 0)))) (idx2 i 1)))) b k
        = b k) := by
  induction n with
  | zero =>
    refine ⟨fun i hi => absurd hi (Nat.not_lt_zero i), fun k _ => rfl⟩
  | succ n ih =>
    obtain ⟨ih1, ih2⟩ := ih
    rw [List.range_succ, List.foldl_append]
    simp only [List.foldl_cons, List.foldl_nil]
    have hold : ∀ j, n ≤ j → ∀ c, c < 2 →
        ld32 ((List.range n).foldl (fun b i =>
          st32 (st32 b (idx2 i 0) (g0 i (ld32 b (idx2 i 0)))) (idx2 i 1)
            (g1 i (ld32 (st32 b (idx2 i 0) (g0 i (ld32 b (idx2 i 0)))) (idx2 i 1)))) b)
          (idx2 j c) = ld32 b (idx2 j c) := by
      intro j hj c hc
      apply ld32_congr
      intro k hk _
      apply ih2
      unfold idx2 at hk
      omega
    constructor
    · intro i hi
      by_cases hin : i = n
      · subst hin
        constructor
        · rw [ld32_st32_other _ _ _ _ (by unfold idx2; omega), ld32_st32_same,
            hold i (le_refl i) 0 (by decide)]
        · rw [ld32_st32_same, ld32_st32_other _ _ _ _ (by unfold idx2; omega),
            hold i (le_refl i) 1 (by decide)]
      · have hlt : i < n := by omega
        rw [ld32_st32_other _ _ _ _ (by unfold idx2; omega),
          ld32_st32_other _ _ _ _ (by unfold idx2; omega),
          ld32_st32_other _ _ _ _ (by unfold idx2; omega),
          ld32_st32_other _ _ _ _ (by unfold idx2; omega)]
        exact ih1 i hlt
    · intro k hk
      rw [st32_other_byte _ _ _ _ (by unfold idx2; omega),
        st32_other_byte _ _ _ _ (by unfold idx2; omega)]
      exact ih2 k (by omega)

/-- Every `float` index below `2 * n` is an entry of one of the rows `0 .. n-1`. -/
theorem idx2_div_mod (k : Nat) : idx2 (k / 2) (k % 2) = k := by
  unfold idx2
  omega

theorem sum_position_handler_spec (lhs rhs : Buf) (bytes : Nat) :
    (∀ k, k < 2 * K → ld32 (sum_position_handler lhs rhs bytes) k
        = fadd (ld32 lhs k) (ld32 rhs k)) ∧
    (∀ k, K * 2 * sizeof_float ≤ k → sum_position_handler lhs rhs bytes k = lhs k) := by
  obtain ⟨h1, h2⟩ := rows_loop_spec
    (fun i w => fadd w (ld32 rhs (idx2 i 0))) (fun i w => fadd w (ld32 rhs (idx2 i 1))) K lhs
  constructor
  · intro k hk
    have hi : k / 2 < K := by omega
    obtain ⟨a0, a1⟩ := h1 (k / 2) hi
    rcases Nat.mod_two_eq_zero_or_one k with hc | hc
    · have e : idx2 (k / 2) 0 = k := by rw [← hc]; exact idx2_div_mod k
      rw [e] at a0
      rw [Nat.mod_eq_of_lt (fadd_lt _ _)] at a0
      exact a0
    · have e : idx2 (k / 2) 1 = k := by rw [← hc]; exact idx2_div_mod k
      rw [e] at a1
      rw [Nat.mod_eq_of_lt (fadd_lt _ _)] at a1
      exact a1
  · intro k hk
    apply h2
    unfold sizeof_float at hk
    omega

theorem update_centers_spec (centers positions count : Buf) :
    (∀ i, i < K →
      ld32 (update_centers centers positions count) (idx2 i 0)
        = fdiv (ld32 positions (idx2 i 0)) (int_to_float (ld_int count i)) ∧
      ld32 (update_centers centers positions count) (idx2 i 1)
        = fdiv (ld32 positions (idx2 i 1)) (int_to_float (ld_int count i))) ∧
    (∀ k, sizeof_centers ≤ k → update_centers centers positions count k = centers k) := by
  obtain ⟨h1, h2⟩ := rows_loop_spec
    (fun i _ => fdiv (ld32 positions (idx2 i 0)) (int_to_float (ld_int count i)))
    (fun i _ => fdiv (ld32 positions (idx2 i 1)) (int_to_float (ld_int count i))) K centers
  constructor
  · intro i hi
    obtain ⟨a0, a1⟩ := h1 i hi
    rw [Nat.mod_eq_of_lt (fdiv_lt _ _)] at a0 a1
    exact ⟨a0, a1⟩
  · intro k hk
    apply h2
    unfold sizeof_centers sizeof_float at hk
    omega

theorem set_zero_handler_word (data : Buf) (n k : Nat) (h : 4 * k + 3 < n) :
    ld32 (set_zero_handler data n) k = 0 := by
  unfold ld32 set_zero_handler memset
  have h0 : 4 * k < n := by omega
  have h1 : 4 * k + 1 < n := by omega
  have h2 : 4 * k + 2 < n := by omega
  simp only [h0, h1, h2, h, if_true, byte_val]

/-- The `float` held at index `k < 2 * K` by the position reduction: the partials' entries
added up one by one in arrival order, starting from `+0.0` (all bits zero). -/
theorem position_reduce_spec (acc0 : Buf) (arrivals : List Buf) :
    (∀ k, k < 2 * K → ld32 (position_reduce acc0 arrivals) k
        = (arrivals.map (fun p => ld32 p k)).foldl fadd 0) ∧
    (∀ k, K * 2 * sizeof_float ≤ k → position_reduce acc0 arrivals k = acc0 k) := by
  unfold position_reduce reduction
  induction arrivals using List.reverseRecOn with
  | nil =>
    constructor
    · intro k hk
      simp only [List.foldl_nil, List.map_nil]
      rw [set_zero_handler_word acc0 _ k (by unfold sizeof_float; omega)]
    · intro k hk
      simp only [List.foldl_nil]
      unfold set_zero_handler memset
      simp only [Nat.not_lt.mpr hk, if_false]
  | append_singleton ps p ih =>
    obtain ⟨ih1, ih2⟩ := ih
    rw [List.foldl_append]
    simp only [List.foldl_cons, List.foldl_nil]
    obtain ⟨s1, s2⟩ := sum_position_handler_spec
      (List.foldl (fun acc p => sum_position_handler acc p (K * 2 * sizeof_float))
        (set_zero_handler acc0 (K * 2 * sizeof_float)) ps) p (K * 2 * sizeof_float)
    constructor
    · intro k hk
      rw [s1 k hk, ih1 k hk]
      simp only [List.map_append, List.map_cons, List.map_nil, List.foldl_append,
        List.foldl_cons, List.foldl_nil]
    · intro k hk
      rw [s2 k hk, ih2 k hk]

/-! ## C1: the count reduction does not depend on the arrival order -/

/-- C1. For every list of partial counts (buffers of `K` 32-bit ints) and every
permutation `arrival` of it, resetting the accumulator with `set_zero_handler` and
applying `sum_count_handler` once per partial in the order `arrival` leaves, at every
index below `K`, the 32-bit wraparound sum of the partials' ints at that index; the
accumulator is therefore the same as for the unpermuted order. -/
theorem count_reduce_arrival_order (acc0 : Buf) (partials arrival : List Buf)
    (h : arrival.Perm partials) :
    (∀ i, i < K → ld_int (count_reduce acc0 arrival) i
        = wrap32 ((partials.map (fun p => ld_int p i)).sum)) ∧
    count_reduce acc0 arrival = count_reduce acc0 partials := by
  obtain ⟨a1, a2⟩ := count_reduce_spec acc0 arrival
  obtain ⟨p1, p2⟩ := count_reduce_spec acc0 partials
  have hsum : ∀ i, (arrival.map (fun p => ld_int p i)).sum
      = (partials.map (fun p => ld_int p i)).sum :=
    fun i => List.Perm.sum_eq (List.Perm.map _ h)
  constructor
  · intro i hi
    rw [a1 i hi, hsum i]
  · funext k
    by_cases hk : k < K * sizeof_int
    · have hi : k / 4 < K := by
        unfold sizeof_int at hk
        omega
      rw [byte_of_ld32 (count_reduce acc0 arrival) k, byte_of_ld32 (count_reduce acc0 partials) k]
      have e : ld_int (count_reduce acc0 arrival) (k / 4)
          = ld_int (count_reduce acc0 partials) (k / 4) := by
        rw [a1 _ hi, p1 _ hi, hsum]
      rw [ld32_eq_of_ld_int_eq _ _ _ _ e]
    · rw [a2 k (by omega), p2 k (by omega)]

/-- C1 at a concrete input: three partials whose first counts are `2147483647`, `1`
and `5`, arriving in the order third, first, second. -/
theorem count_reduce_arrival_order_witness :
    List.Perm
      [st_int (fun _ => 0) 0 5, st_int (fun _ => 0) 0 2147483647, st_int (fun _ => 0) 0 1]
      [st_int (fun _ => 0) 0 2147483647, st_int (fun _ => 0) 0 1, st_int (fun _ => 0) 0 5] ∧
    count_reduce (fun _ => 9)
      [st_int (fun _ => 0) 0 5, st_int (fun _ => 0) 0 2147483647, st_int (fun _ => 0) 0 1]
      = count_reduce (fun _ => 9)
      [st_int (fun _ => 0) 0 2147483647, st_int (fun _ => 0) 0 1, st_int (fun _ => 0) 0 5] :=
  ⟨@List.perm_append_comm Buf [st_int (fun _ => 0) 0 5]
      [st_int (fun _ => 0) 0 2147483647, st_int (fun _ => 0) 0 1],
   (count_reduce_arrival_order (fun _ => 9) _ _
      (@List.perm_append_comm Buf [st_int (fun _ => 0) 0 5]
        [st_int (fun _ => 0) 0 2147483647, st_int (fun _ => 0) 0 1])).2⟩

/-! ## Division of a `float` by `+0.0` -/

theorem fdiv_zero_divisor (x : Nat) :
    f_isNaN (fdiv x 0) = true ∨ f_isInf (fdiv x 0) = true := by
  have hs : (f_sign x + f_sign 0) % 2 = 0 ∨ (f_sign x + f_sign 0) % 2 = 1 := by omega
  have hinf : f_isInf (f_inf ((f_sign x + f_sign 0) % 2)) = true := by
    rcases hs with h | h <;> rw [h] <;> decide
  have hb1 : f_isNaN 0 = false := by decide
  have hb2 : f_isInf 0 = false := by decide
  have hb3 : f_isZero 0 = true := by decide
  unfold fdiv
  simp only [hb1, hb2, hb3, Bool.false_eq_true, or_false, if_false, if_true]
  split
  · left
    decide
  · split
    · right
      exact hinf
    · split
      · left
        decide
      · right
        exact hinf


/-! ## C4: the partition of the points over the nodes -/

theorem num_node_eq (data_size data_per_node : Int) :
    num_node data_size data_per_node = Int.tdiv data_size data_per_node := by
  unfold num_node c_ceil
  exact Int.ceil_intCast _

/-- C4, the code at `DATA_SIZE = 15`, `DATA_PER_NODE = 10`: the quotient `15/10` is
already truncated to `1` when `ceil` sees it, so there is one node and it is told to
handle all 15 points, more than the 10 points its block of `10*2` floats holds;
`generate_data_handler` run with that size writes the float at index 20, the first one
past the block. -/
theorem partition_exceeds_block_at_15_10 :
    num_node 15 10 = 1 ∧
    node_sizes 15 10 = [15] ∧
    ¬ (node_size 15 10 0 ≤ 10) ∧
    ld32 (generate_data_handler (fun _ => 0) (node_size 15 10 0) (fun _ => f_lit 1 1)).1
      (2 * 10) = f_lit 1 1 := by
  refine ⟨by decide, by decide, by decide, ?_⟩
  decide

/-- The partition of the constants as compiled: ten nodes of `1000000` points each. -/
theorem partition_as_compiled :
    num_node DATA_SIZE DATA_PER_NODE = 10 ∧
    node_sizes DATA_SIZE DATA_PER_NODE = List.replicate 10 1000000 := by
  constructor <;> decide


end Kmeans

/-! ## C5: signals received by the gate of `passing/ctest/contiguous.c` -/

namespace Passing

open Kmeans (Ev Target HpxStatus)

/-- C5, the code on one rank (`total_rank = 1`): the gate is created for
`1 * NUM_TRY = 10` signals; each of the ten `worker_action` calls reports its return to
the gate and also issues one `job_action` call whose completion target is the gate, so
the gate receives 20 signals. -/
theorem gate_receives_twice_expected_at_1 :
    gate_expected 1 = 10 ∧ gate_signals 1 = 20 ∧
    worker_action_handler 0 1 Lco.and_lco (Lco.buffer_completed 1)
      = ([Ev.lco_future_new (Lco.buffer_completed 1) 0,
          Ev.call (Target.there 0) Action.job_action (Lco.buffer_completed 1) Lco.and_lco
            [107374182] [],
          Ev.lco_wait (Lco.buffer_completed 1)], HpxStatus.HPX_SUCCESS) := by
  refine ⟨by decide, by decide, ?_⟩
  rfl

end Passing

namespace Kmeans


/-! ## C8: `broadcast_centers_handler` -/

/-- C8. For every buffer and every `bytes <= sizeof(centers)`, after
`broadcast_centers_handler` the first `bytes` bytes of the node's `centers` are the
buffer's, every other byte is unchanged, and the handler returns `HPX_SUCCESS`; for the
payload of the two floats `[1.5, 2.5]` the node's `centers[0]` reads back as
`[1.5, 2.5]`, and a payload of `sizeof(centers)` bytes replaces every byte of `centers`. -/
theorem broadcast_centers_installs_payload :
    (∀ (centers buffer : Buf) (bytes : Nat), bytes ≤ sizeof_centers →
      (∀ k, k < bytes → (broadcast_centers_handler centers buffer bytes).1 k = buffer k) ∧
      (∀ k, bytes ≤ k → (broadcast_centers_handler centers buffer bytes).1 k = centers k) ∧
      (broadcast_centers_handler centers buffer bytes).2 = HpxStatus.HPX_SUCCESS) ∧
    (∀ (centers : Buf),
      ld32 (broadcast_centers_handler centers (float_pair (f_lit 15 10) (f_lit 25 10))
        (2 * sizeof_float)).1 (idx2 0 0) = f_lit 15 10 ∧
      ld32 (broadcast_centers_handler centers (float_pair (f_lit 15 10) (f_lit 25 10))
        (2 * sizeof_float)).1 (idx2 0 1) = f_lit 25 10) ∧
    (∀ (centers buffer : Buf) (k : Nat), k < sizeof_centers →
      (broadcast_centers_handler centers buffer sizeof_centers).1 k = buffer k) := by
  refine ⟨?_, ?_, ?_⟩
  · intro centers buffer bytes _
    refine ⟨?_, ?_, rfl⟩
    · intro k hk
      show memcpy centers buffer bytes k = buffer k
      unfold memcpy
      simp only [hk, if_true]
    · intro k hk
      show memcpy centers buffer bytes k = centers k
      unfold memcpy
      simp only [Nat.not_lt.mpr hk, if_false]
  · intro centers
    have h : ∀ i, i < 2 →
        ld32 (broadcast_centers_handler centers (float_pair (f_lit 15 10) (f_lit 25 10))
          (2 * sizeof_float)).1 i = ld32 (float_pair (f_lit 15 10) (f_lit 25 10)) i := by
      intro i hi
      apply ld32_congr
      intro k _ hk
      show memcpy centers _ (2 * sizeof_float) k = _
      unfold memcpy sizeof_float
      have : k < 2 * 4 := by omega
      simp only [this, if_true]
    constructor
    · rw [h _ (by decide)]
      decide
    · rw [h _ (by decide)]
      decide
  · intro centers buffer k hk
    show memcpy centers buffer sizeof_centers k = buffer k
    unfold memcpy
    simp only [hk, if_true]

/-- C8 at a concrete input: four bytes copied over a `centers` that held `(2.5, 2.5)`
in row 0. -/
theorem broadcast_centers_installs_payload_witness :
    4 ≤ sizeof_centers ∧
    (broadcast_centers_handler (float_pair (f_lit 25 10) (f_lit 25 10))
      (float_pair (f_lit 15 10) (f_lit 15 10)) 4).2 = HpxStatus.HPX_SUCCESS :=
  ⟨by decide,
   (broadcast_centers_installs_payload.1 (float_pair (f_lit 25 10) (f_lit 25 10))
      (float_pair (f_lit 15 10) (f_lit 15 10)) 4 (by decide)).2.2⟩


/-! ## C9 and C10: the inner loop of `kmeans_handler` reads `centers[2*j]`, not `centers[j]` -/

/-! ## The sign of a squared distance -/

theorem f_sign_eq_zero_of_lt (x : Nat) (h : x < 2147483648) : f_sign x = 0 := by
  unfold f_sign
  omega

theorem f_round_zero_sign (N D : Nat) : f_sign (f_round 0 N D) = 0 := by
  apply f_sign_eq_zero_of_lt
  have h : ∀ mag : Nat, (if 2139095040 ≤ mag then 2139095040 else mag) ≤ 2139095040 := by
    intro mag
    split <;> omega
  unfold f_round
  have := h (f_shift N D (f_steps 8) 0 * 8388608 +
    if D * 2 ^ f_shift N D (f_steps 8) 0 < 2 * (N % (D * 2 ^ f_shift N D (f_steps 8) 0)) ∨
        2 * (N % (D * 2 ^ f_shift N D (f_steps 8) 0)) = D * 2 ^ f_shift N D (f_steps 8) 0 ∧
          N / (D * 2 ^ f_shift N D (f_steps 8) 0) % 2 = 1 then
      N / (D * 2 ^ f_shift N D (f_steps 8) 0) + 1
    else N / (D * 2 ^ f_shift N D (f_steps 8) 0))
  simp only [Nat.zero_mul, Nat.zero_add]
  omega

theorem fmul_self_sign (a : Nat) : f_sign (fmul a a) = 0 := by
  have hs : (f_sign a + f_sign a) % 2 = 0 := by omega
  unfold fmul
  rw [hs]
  split
  · decide
  · split
    · split
      · decide
      · decide
    · exact f_round_zero_sign _ _

theorem fadd_sign_of_nonneg (x y : Nat) (hx : f_sign x = 0) (hy : f_sign y = 0) :
    f_sign (fadd x y) = 0 := by
  have hsx : f_signed x = ((f_units x : Nat) : Int) := by
    unfold f_signed
    rw [hx]
    rfl
  have hsy : f_signed y = ((f_units y : Nat) : Int) := by
    unfold f_signed
    rw [hy]
    rfl
  unfold fadd
  rw [hx, hy]
  split
  · decide
  · split
    · split
      · decide
      · decide
    · split
      · decide
      · split
        · split
          · rename_i h
            exact absurd h.1 (by decide)
          · decide
        · have hnn : ¬ (f_signed x + f_signed y < 0) := by
            rw [hsx, hsy]
            omega
          rw [if_neg hnn]
          exact f_round_zero_sign _ _

theorem calc_distance_sq_sign (m0 : Buf) (p0 : Nat) (m1 : Buf) (p1 : Nat) :
    f_sign (calc_distance_sq m0 p0 m1 p1) = 0 := by
  unfold calc_distance_sq
  exact fadd_sign_of_nonneg _ _ (fmul_self_sign _) (fmul_self_sign _)

/-- Nothing of sign `+` is below `+0.0`. -/
theorem flt_zero_of_sign (x : Nat) (hx : f_sign x = 0) : flt x 0 = false := by
  have hk : f_key x = ((f_mag x : Nat) : Int) := by
    unfold f_key
    rw [hx]
    rfl
  have hk0 : f_key 0 = 0 := by decide
  have hn : ¬ (((f_mag x : Nat) : Int) < 0) := by omega
  unfold flt
  rw [hk, hk0, decide_eq_false hn, Bool.and_false]

/-- Once `mindist` is `+0.0` the inner loop never changes its choice. -/
theorem nearest_steps_at_zero (centers data : Buf) (i m : Nat) (js : List Nat) :
    js.foldl (nearest_step centers data i) (m, 0) = (m, 0) := by
  induction js with
  | nil => rfl
  | cons j js ih =>
    rw [List.foldl_cons]
    have h : nearest_step centers data i (m, 0) j = (m, 0) := by
      unfold nearest_step
      simp only [flt_zero_of_sign _ (calc_distance_sq_sign _ _ _ _), Bool.false_eq_true,
        if_false]
    rw [h, ih]

/-- The image of `centers` below the end of the array does not depend on what follows. -/
theorem set_row_rows_all_array (x y r a b : Nat) (beyond : Buf) (p : Nat)
    (hp : 4 * p + 3 < sizeof_centers) :
    ld32 (set_row (rows_all x y beyond) r a b) p
      = ld32 (set_row (rows_all x y (fun _ => 0)) r a b) p := by
  apply ld32_congr
  intro k _ hk
  have hlt : k < sizeof_centers := by omega
  unfold set_row st32 rows_all
  simp only [hlt, if_true]

theorem calc_distance_sq_array (x y r a b : Nat) (beyond data : Buf) (p0 p1 : Nat)
    (hp : 4 * (p1 + 1) + 3 < sizeof_centers) :
    calc_distance_sq data p0 (set_row (rows_all x y beyond) r a b) p1
      = calc_distance_sq data p0 (set_row (rows_all x y (fun _ => 0)) r a b) p1 := by
  unfold calc_distance_sq
  rw [set_row_rows_all_array x y r a b beyond p1 (by omega),
    set_row_rows_all_array x y r a b beyond (p1 + 1) hp]

set_option maxRecDepth 100000 in
theorem nearest_row2_any_memory (beyond : Buf) :
    nearest (set_row (rows_all (f_lit 10 1) 0 beyond) 2 0 0) (float_pair 0 0) 0 = (1, 0) := by
  have hl : List.range' 1 (K - 1) = 1 :: List.range' 2 (K - 2) := by decide
  have h0 : calc_distance_sq (float_pair 0 0) (2 * 0)
      (set_row (rows_all (f_lit 10 1) 0 (fun _ => 0)) 2 0 0) 0 = f_lit 100 1 := by decide
  have h1 : calc_distance_sq (float_pair 0 0) (2 * 0)
      (set_row (rows_all (f_lit 10 1) 0 (fun _ => 0)) 2 0 0) (row_offset (2 * 1)) = 0 := by
    decide
  have hf : flt 0 (f_lit 100 1) = true := by decide
  unfold nearest
  rw [hl, List.foldl_cons]
  have hstep : nearest_step (set_row (rows_all (f_lit 10 1) 0 beyond) 2 0 0) (float_pair 0 0) 0
      (0, calc_distance_sq (float_pair 0 0) (2 * 0)
        (set_row (rows_all (f_lit 10 1) 0 beyond) 2 0 0) 0) 1 = (1, 0) := by
    unfold nearest_step
    rw [calc_distance_sq_array _ _ _ _ _ beyond _ _ 0 (by decide),
      calc_distance_sq_array _ _ _ _ _ beyond _ _ (row_offset (2 * 1)) (by decide), h0, h1]
    simp only [hf, if_true]
  rw [hstep]
  exact nearest_steps_at_zero _ _ _ _ _

theorem assign_step_label (centers data : Buf) (st : KmState) (i : Nat) :
    (assign_step centers data st i).label
      = st_int st.label i (((nearest centers data i).1 : Nat) : Int) := rfl

theorem assign_step_count (centers data : Buf) (st : KmState) (i : Nat) :
    (assign_step centers data st i).count
      = st_int st.count (nearest centers data i).1
          (ld_int st.count (nearest centers data i).1 + 1) := rfl

theorem kmeans_handler_one_point (centers datachunk : Buf) (pr cr : Lco) (uninit : KmState) :
    (kmeans_handler centers datachunk 1 pr cr uninit).state
      = assign_step centers datachunk
          { count := set_zero_handler uninit.count (K * sizeof_int)
            sum := set_zero_handler uninit.sum (K * 2 * sizeof_float)
            label := st_int uninit.label 0 (-1) } 0 := rfl

set_option maxRecDepth 100000 in
theorem nearest_zero_beyond_example :
    nearest (rows_all (f_lit 10 1) 0 (fun _ => 0)) (float_pair 0 0) 0 = (50, 0) := by
  decide

set_option maxRecDepth 100000 in
theorem nearest_same_beyond_example :
    nearest (rows_all (f_lit 10 1) 0 (fun k => float_pair (f_lit 10 1) 0 (k % 8)))
      (float_pair 0 0) 0 = (0, f_lit 100 1) := by
  decide

/-- C9, the code at a concrete input: one point `(0.0, 0.0)`; `centers[2]` is
`(0.0, 0.0)` and every other center is `(10.0, 0.0)`.  Whatever lies in memory after the
array and in the handler's uninitialised arrays, the handler assigns the point to
cluster 1 (it compared the point with `centers[2]` when `j` was 1), although `centers[1]`
is at squared distance `100.0` and `centers[2]` at `0.0`: the chosen index is not a
nearest center. -/
theorem point_assigned_to_cluster_1_nearest_is_2 (beyond : Buf) (uninit : KmState) :
    nearest (set_row (rows_all (f_lit 10 1) 0 beyond) 2 0 0) (float_pair 0 0) 0
      = (1, 0) ∧
    calc_distance_sq (float_pair 0 0) 0
      (set_row (rows_all (f_lit 10 1) 0 beyond) 2 0 0) (row_offset 1) = f_lit 100 1 ∧
    calc_distance_sq (float_pair 0 0) 0
      (set_row (rows_all (f_lit 10 1) 0 beyond) 2 0 0) (row_offset 2) = 0 ∧
    flt 0 (f_lit 100 1) = true ∧
    ld_int (kmeans_handler (set_row (rows_all (f_lit 10 1) 0 beyond) 2 0 0)
      (float_pair 0 0) 1 (Lco.position_reduce 0) (Lco.count_reduce 0)
      uninit).state.label 0 = 1 ∧
    ld_int (kmeans_handler (set_row (rows_all (f_lit 10 1) 0 beyond) 2 0 0)
      (float_pair 0 0) 1 (Lco.position_reduce 0) (Lco.count_reduce 0)
      uninit).state.count 1 = 1 := by
  have hn := nearest_row2_any_memory beyond
  have d1 : calc_distance_sq (float_pair 0 0) 0
      (set_row (rows_all (f_lit 10 1) 0 (fun _ => 0)) 2 0 0) (row_offset 1)
      = f_lit 100 1 := by decide
  have d2 : calc_distance_sq (float_pair 0 0) 0
      (set_row (rows_all (f_lit 10 1) 0 (fun _ => 0)) 2 0 0) (row_offset 2) = 0 := by decide
  refine ⟨hn, ?_, ?_, by decide, ?_, ?_⟩
  · rw [calc_distance_sq_array _ _ _ _ _ beyond _ _ (row_offset 1) (by decide), d1]
  · rw [calc_distance_sq_array _ _ _ _ _ beyond _ _ (row_offset 2) (by decide), d2]
  · rw [kmeans_handler_one_point, assign_step_label, hn, ld_int_st_int_same]
    decide
  · rw [kmeans_handler_one_point, assign_step_count, hn, ld_int_st_int_same,
      set_zero_handler_int uninit.count K 1 (by decide)]
    decide

set_option maxRecDepth 100000 in
/-- C10, the code at `j = 50`: `&centers[2*j]` is row 100 of the 100-row array, at float
index `200 = 2 * K`, so the two floats read there lie past the array.  The read is
observable: two images of `centers` that agree on every byte of the array and differ only
after it make the inner loop choose different clusters for the point `(0.0, 0.0)`. -/
theorem centers_row_read_past_the_array :
    (1 ≤ 50 ∧ 50 < K ∧ row_offset (2 * 50) = 2 * K ∧ 4 * row_offset (2 * 50) = sizeof_centers) ∧
    (∀ k, k < sizeof_centers →
      rows_all (f_lit 10 1) 0 (fun _ => 0) k
        = rows_all (f_lit 10 1) 0 (fun k => float_pair (f_lit 10 1) 0 (k % 8)) k) ∧
    nearest (rows_all (f_lit 10 1) 0 (fun _ => 0)) (float_pair 0 0) 0 = (50, 0) ∧
    nearest (rows_all (f_lit 10 1) 0 (fun k => float_pair (f_lit 10 1) 0 (k % 8)))
      (float_pair 0 0) 0 = (0, f_lit 100 1) := by
  refine ⟨by decide, ?_, nearest_zero_beyond_example, nearest_same_beyond_example⟩
  intro k hk
  unfold rows_all
  simp only [hk, if_true]

/-- The reads of the data chunk are in bounds: for `i < size <= DATA_PER_NODE` the floats
`data[2*i]` and `data[2*i+1]` lie inside the block of `DATA_PER_NODE*2` floats. -/
theorem data_reads_in_bounds (size : Int) (i : Nat) (hi : (i : Int) < size)
    (hs : size ≤ DATA_PER_NODE) :
    ((2 * i + 1 : Nat) : Int) < DATA_PER_NODE * 2 := by
  push_cast
  omega

/-- The bound on the data reads at the last point of a full block. -/
theorem data_reads_in_bounds_witness :
    (((999999 : Nat) : Int) < 1000000 ∧ (1000000 : Int) ≤ DATA_PER_NODE) ∧
    ((2 * 999999 + 1 : Nat) : Int) < DATA_PER_NODE * 2 :=
  ⟨⟨by decide, by decide⟩, data_reads_in_bounds 1000000 999999 (by decide) (by decide)⟩


/-! ## Lemmas on traces -/

theorem filter_map_all {α β : Type} (f : α → β) (p : β → Bool) (h : ∀ a, p (f a) = true)
    (l : List α) : (l.map f).filter p = l.map f := by
  induction l with
  | nil => rfl
  | cons a l ih => simp only [List.map_cons, List.filter_cons, h a, if_true, ih]

theorem filter_map_none {α β : Type} (f : α → β) (p : β → Bool) (h : ∀ a, p (f a) = false)
    (l : List α) : (l.map f).filter p = [] := by
  induction l with
  | nil => rfl
  | cons a l ih =>
    simp only [List.map_cons, List.filter_cons, h a, ih]
    rfl

theorem precededBy_of_none {E : Type} (p q : E → Bool) (tr : List E)
    (h : ∀ e ∈ tr, q e = false) : PrecededBy p q tr := by
  intro pre e post heq hq
  have he : e ∈ tr := by
    rw [heq]
    exact List.mem_append_right _ (List.mem_cons_self _ _)
  rw [h e he] at hq
  exact absurd hq (by decide)

/-- Once an event satisfying `p` has happened, any continuation keeps the precedence. -/
theorem precededBy_append_of_seen {E : Type} (p q : E → Bool) (tr evs : List E)
    (h : PrecededBy p q tr) (hw : ∃ w, w ∈ tr ∧ p w = true) :
    PrecededBy p q (tr ++ evs) := by
  intro pre e post heq hq
  rcases List.append_eq_append_iff.mp heq with ⟨a, ha, _⟩ | ⟨c, hc, hc2⟩
  · obtain ⟨w, hw1, hw2⟩ := hw
    exact ⟨w, by rw [ha]; exact List.mem_append_left _ hw1, hw2⟩
  · cases c with
    | nil =>
      obtain ⟨w, hw1, hw2⟩ := hw
      rw [List.append_nil] at hc
      exact ⟨w, by rw [← hc]; exact hw1, hw2⟩
    | cons x c =>
      rw [List.cons_append] at hc2
      have hx : e = x := (List.cons.inj hc2).1
      subst hx
      exact h pre e c hc hq

/-- A continuation without events satisfying `q` keeps the precedence. -/
theorem precededBy_append_of_none {E : Type} (p q : E → Bool) (tr evs : List E)
    (h : PrecededBy p q tr) (hn : ∀ e ∈ evs, q e = false) :
    PrecededBy p q (tr ++ evs) := by
  intro pre e post heq hq
  rcases List.append_eq_append_iff.mp heq with ⟨a, _, ha2⟩ | ⟨c, hc, hc2⟩
  · have he : e ∈ evs := by
      rw [ha2]
      exact List.mem_append_right _ (List.mem_cons_self _ _)
    rw [hn e he] at hq
    exact absurd hq (by decide)
  · cases c with
    | nil =>
      have he : e ∈ evs := by
        rw [List.nil_append] at hc2
        rw [← hc2]
        exact List.mem_cons_self _ _
      rw [hn e he] at hq
      exact absurd hq (by decide)
    | cons x c =>
      rw [List.cons_append] at hc2
      have hx : e = x := (List.cons.inj hc2).1
      subst hx
      exact h pre e c hc hq

/-- A continuation that starts with an event satisfying `p` (and not `q`) keeps the
precedence, whatever follows. -/
theorem precededBy_append_cons {E : Type} (p q : E → Bool) (tr : List E) (x : E)
    (evs : List E) (h : PrecededBy p q tr) (hp : p x = true) (hq : q x = false) :
    PrecededBy p q (tr ++ x :: evs) := by
  have h1 : PrecededBy p q (tr ++ [x]) :=
    precededBy_append_of_none p q tr [x] h (by
      intro e he
      rw [List.mem_singleton] at he
      rw [he]
      exact hq)
  have h2 := precededBy_append_of_seen p q (tr ++ [x]) evs h1
    ⟨x, List.mem_append_right _ (List.mem_singleton_self x), hp⟩
  rw [List.append_assoc] at h2
  exact h2

end Kmeans

/-! ## C6: phase separation in the drivers -/

namespace Dotproduct

open Kmeans

/-- C6, the code of `_main_action` for every `x` and `y`: the driver never waits on
`copy_data_lco` (its trace has no wait at all), yet it issues the 1024 `_init` calls that
write the blocks and then the 1024 `prod` calls that read them. -/
theorem prod_calls_without_wait_on_copy_data_lco (x y : Nat → Int) :
    (∀ e ∈ _main_action x y, Ev.isWait Lco.copy_data_lco e = false) ∧
    ((_main_action x y).filter (Ev.isCall Action._init)).length = 1024 ∧
    ((_main_action x y).filter (Ev.isCall Action.prod)).length = 1024 ∧
    ¬ Kmeans.PrecededBy (Ev.isWait Lco.copy_data_lco) (Ev.isCall Action.prod)
      (_main_action x y) := by
  have hnowait : ∀ e ∈ _main_action x y, Ev.isWait Lco.copy_data_lco e = false := by
    intro e he
    unfold _main_action at he
    simp only [List.mem_append, List.mem_cons, List.mem_map, List.mem_singleton,
      List.not_mem_nil, or_false] at he
    rcases he with ((((h | h) | ⟨i, _, h⟩) | h) | ⟨i, _, h⟩) | h | h <;> subst h <;> rfl
  have hdim : DIM.toNat = 1024 := by decide
  have hinit : ((_main_action x y).filter (Ev.isCall Action._init)).length = 1024 := by
    unfold _main_action
    simp only [List.filter_append]
    rw [filter_map_all _ _ (fun _ => rfl), filter_map_none _ _ (fun _ => rfl)]
    simp only [List.filter_cons, List.filter_nil, Ev.isCall, List.length_append,
      List.length_map, List.length_range, List.length_nil, hdim]
    rfl
  have hprod : ((_main_action x y).filter (Ev.isCall Action.prod)).length = 1024 := by
    unfold _main_action
    simp only [List.filter_append]
    rw [filter_map_none _ _ (fun _ => rfl), filter_map_all _ _ (fun _ => rfl)]
    simp only [List.filter_cons, List.filter_nil, Ev.isCall, List.length_append,
      List.length_map, List.length_range, List.length_nil, hdim]
    rfl
  refine ⟨hnowait, hinit, hprod, ?_⟩
  intro hpre
  have hne : (_main_action x y).filter (Ev.isCall Action.prod) ≠ [] := by
    intro h0
    rw [h0] at hprod
    exact absurd hprod (by decide)
  obtain ⟨e, he⟩ := List.exists_mem_of_ne_nil _ hne
  rw [List.mem_filter] at he
  obtain ⟨pre, post, hsplit⟩ := List.append_of_mem he.1
  obtain ⟨w, hw1, hw2⟩ := hpre pre e post hsplit he.2
  have hw : w ∈ _main_action x y := by
    rw [hsplit]
    exact List.mem_append_left _ hw1
  rw [hnowait w hw] at hw2
  exact absurd hw2 (by decide)

end Dotproduct

namespace Kmeans


/-! ## The trace of `main_handler` -/

theorem main_prologue_no_kmeans_call (ds dpn : Int) :
    ∀ e ∈ main_prologue ds dpn, Ev.isCall Action.kmeans_action e = false := by
  intro e he
  unfold main_prologue at he
  simp only [List.mem_append, List.mem_cons, List.mem_map, List.mem_singleton,
    List.not_mem_nil, or_false] at he
  rcases he with ((h | h) | ⟨i, _, h⟩) | h | h | h <;> subst h <;> rfl

theorem main_prologue_waits (ds dpn : Int) :
    ∃ w, w ∈ main_prologue ds dpn ∧ Ev.isWait Lco.generate_data_complete w = true := by
  refine ⟨Ev.lco_wait Lco.generate_data_complete, ?_, rfl⟩
  unfold main_prologue
  exact List.mem_append_right _ (List.mem_cons_self _ _)

/-- What holds of the trace at every point of the loop: a wait on
`generate_data_complete` has happened, and every `kmeans_action` call made so far came
after that wait and after a broadcast. -/
theorem main_body_keeps_phases (env : Env) (ds dpn : Int) (st : MainState)
    (hw : ∃ w, w ∈ st.trace ∧ Ev.isWait Lco.generate_data_complete w = true)
    (h1 : PrecededBy (Ev.isWait Lco.generate_data_complete)
      (Ev.isCall Action.kmeans_action) st.trace)
    (h2 : PrecededBy (Ev.isBcast Action.broadcast_centers_action)
      (Ev.isCall Action.kmeans_action) st.trace) :
    (∃ w, w ∈ (main_body env ds dpn st).trace ∧
      Ev.isWait Lco.generate_data_complete w = true) ∧
    PrecededBy (Ev.isWait Lco.generate_data_complete)
      (Ev.isCall Action.kmeans_action) (main_body env ds dpn st).trace ∧
    PrecededBy (Ev.isBcast Action.broadcast_centers_action)
      (Ev.isCall Action.kmeans_action) (main_body env ds dpn st).trace := by
  refine ⟨?_, ?_, ?_⟩
  · obtain ⟨w, hw1, hw2⟩ := hw
    exact ⟨w, List.mem_append_left _ hw1, hw2⟩
  · exact precededBy_append_of_seen _ _ _ _ h1 hw
  · show PrecededBy _ _ (st.trace ++ main_iteration_events ds dpn st.centers
      st.num_iteration.toNat)
    unfold main_iteration_events
    simp only [List.cons_append, List.nil_append]
    exact precededBy_append_cons _ _ _ _ _ h2 rfl rfl

theorem main_loop_keeps_phases (env : Env) (ds dpn : Int) (fuel : Nat) :
    ∀ st : MainState,
    (∃ w, w ∈ st.trace ∧ Ev.isWait Lco.generate_data_complete w = true) →
    PrecededBy (Ev.isWait Lco.generate_data_complete)
      (Ev.isCall Action.kmeans_action) st.trace →
    PrecededBy (Ev.isBcast Action.broadcast_centers_action)
      (Ev.isCall Action.kmeans_action) st.trace →
    (∃ w, w ∈ (main_loop env ds dpn fuel st).trace ∧
      Ev.isWait Lco.generate_data_complete w = true) ∧
    PrecededBy (Ev.isWait Lco.generate_data_complete)
      (Ev.isCall Action.kmeans_action) (main_loop env ds dpn fuel st).trace ∧
    PrecededBy (Ev.isBcast Action.broadcast_centers_action)
      (Ev.isCall Action.kmeans_action) (main_loop env ds dpn fuel st).trace := by
  induction fuel with
  | zero =>
    intro st hw h1 h2
    exact ⟨hw, h1, h2⟩
  | succ fuel ih =>
    intro st hw h1 h2
    unfold main_loop
    split
    · obtain ⟨b1, b2, b3⟩ := main_body_keeps_phases env ds dpn st hw h1 h2
      exact ih _ b1 b2 b3
    · exact ⟨hw, h1, h2⟩

/-- In the trace of `main_handler`, every `kmeans_action` call comes after the wait on
`generate_data_complete` and after a return of `hpx_bcast_rsync`. -/
theorem kmeans_calls_after_wait_and_bcast (env : Env) (centers0 : Buf) :
    PrecededBy (Ev.isWait Lco.generate_data_complete)
      (Ev.isCall Action.kmeans_action) (main_handler env centers0).trace ∧
    PrecededBy (Ev.isBcast Action.broadcast_centers_action)
      (Ev.isCall Action.kmeans_action) (main_handler env centers0).trace := by
  obtain ⟨_, l1, l2⟩ := main_loop_keeps_phases env DATA_SIZE DATA_PER_NODE MAX_ITERATION.toNat
    { centers := memcpy centers0 env.memget sizeof_centers
      num_changes := 1
      num_iteration := 0
      trace := main_prologue DATA_SIZE DATA_PER_NODE }
    (main_prologue_waits _ _)
    (precededBy_of_none _ _ _ (main_prologue_no_kmeans_call _ _))
    (precededBy_of_none _ _ _ (main_prologue_no_kmeans_call _ _))
  have hexit : ∀ e ∈ [(Ev.exit : Ev Action Lco)], Ev.isCall Action.kmeans_action e = false := by
    intro e he
    rw [List.mem_singleton] at he
    rw [he]
    rfl
  exact ⟨precededBy_append_of_none _ _ _ _ l1 hexit, precededBy_append_of_none _ _ _ _ l2 hexit⟩

/-- The loop of `main_handler` ends by its own condition after `MAX_ITERATION` passes:
started with `num_iteration = i` and `num_changes = 1`, `MAX_ITERATION - i` passes of
fuel bring `num_iteration` to `MAX_ITERATION`, and the trace grows by the events of one
iteration per pass. -/
theorem main_loop_trace (env : Env) (ds dpn : Int) (fuel : Nat) :
    ∀ st : MainState, st.num_changes = 1 → 0 ≤ st.num_iteration →
    st.num_iteration + fuel = MAX_ITERATION →
    ∃ cs : List Buf, cs.length = fuel ∧
      (main_loop env ds dpn fuel st).trace
        = st.trace ++ ((cs.enumFrom st.num_iteration.toNat).map
            (fun p => main_iteration_events ds dpn p.2 p.1)).flatten ∧
      (main_loop env ds dpn fuel st).num_iteration = MAX_ITERATION ∧
      (main_loop env ds dpn fuel st).num_changes = 1 := by
  induction fuel with
  | zero =>
    intro st hc _ hn
    refine ⟨[], rfl, ?_, ?_, hc⟩
    · simp [main_loop]
    · simp only [main_loop]
      simpa using hn
  | succ fuel ih =>
    intro st hc h0 hn
    have hlt : st.num_iteration < MAX_ITERATION ∧ st.num_changes > 0 := by
      constructor
      · push_cast at hn
        omega
      · rw [hc]
        decide
    obtain ⟨cs, hlen, htr, hit, hch⟩ := ih (main_body env ds dpn st) hc
      (by show 0 ≤ st.num_iteration + 1; omega)
      (by show st.num_iteration + 1 + (fuel : Int) = MAX_ITERATION; push_cast at hn; omega)
    refine ⟨st.centers :: cs, by simp [hlen], ?_, ?_, ?_⟩
    · unfold main_loop
      rw [if_pos hlt, htr]
      have e : (main_body env ds dpn st).num_iteration.toNat = st.num_iteration.toNat + 1 := by
        show (st.num_iteration + 1).toNat = st.num_iteration.toNat + 1
        omega
      rw [e]
      show (st.trace ++ main_iteration_events ds dpn st.centers st.num_iteration.toNat) ++ _ = _
      simp only [List.enumFrom_cons, List.map_cons, List.flatten_cons, List.append_assoc]
    · unfold main_loop
      rw [if_pos hlt]
      exact hit
    · unfold main_loop
      rw [if_pos hlt]
      exact hch


/-! ## C7: every reduction receives `num_node` sets -/

theorem length_filter_flatMap_map {α β γ : Type} (f : α → β) (g : β → List γ) (p : γ → Bool)
    (c : Nat) (h : ∀ a, ((g (f a)).filter p).length = c) (l : List α) :
    (((l.map f).flatMap g).filter p).length = c * l.length := by
  induction l with
  | nil => rfl
  | cons a l ih =>
    simp only [List.map_cons, List.flatMap_cons, List.filter_append, List.length_append,
      List.length_cons, h a, ih]
    rw [Nat.mul_succ]
    omega

theorem sets_received_iteration (node : Target → NodeMem) (ds dpn : Int) (centers : Buf)
    (it : Nat) :
    sets_received node (main_iteration_events ds dpn centers it) (Lco.position_reduce it)
      = (num_node ds dpn).toNat ∧
    sets_received node (main_iteration_events ds dpn centers it) (Lco.count_reduce it)
      = (num_node ds dpn).toNat := by
  have hp : ∀ i : Nat, ((run_kmeans_call node
      (Ev.call (node_target (num_data_per_node dpn) i) Action.kmeans_action Lco.null Lco.null
        [node_size ds dpn i] [Lco.position_reduce it, Lco.count_reduce it])).filter
      (Ev.isSet (Lco.position_reduce it))).length = 1 := by
    intro i
    simp [run_kmeans_call, kmeans_handler, Ev.isSet]
  have hc : ∀ i : Nat, ((run_kmeans_call node
      (Ev.call (node_target (num_data_per_node dpn) i) Action.kmeans_action Lco.null Lco.null
        [node_size ds dpn i] [Lco.position_reduce it, Lco.count_reduce it])).filter
      (Ev.isSet (Lco.count_reduce it))).length = 1 := by
    intro i
    simp [run_kmeans_call, kmeans_handler, Ev.isSet]
  constructor
  · unfold sets_received main_iteration_events kmeans_calls
    simp only [List.flatMap_append, List.filter_append, List.length_append]
    rw [length_filter_flatMap_map _ _ _ 1 hp]
    simp [run_kmeans_call]
  · unfold sets_received main_iteration_events kmeans_calls
    simp only [List.flatMap_append, List.filter_append, List.length_append]
    rw [length_filter_flatMap_map _ _ _ 1 hc]
    simp [run_kmeans_call]

theorem main_iteration_events_calls (ds dpn : Int) (centers : Buf) (it : Nat) :
    (main_iteration_events ds dpn centers it).filter (Ev.isCall Action.kmeans_action)
      = kmeans_calls ds dpn (Lco.position_reduce it) (Lco.count_reduce it) ∧
    (kmeans_calls ds dpn (Lco.position_reduce it) (Lco.count_reduce it)).filterMap Ev.target?
      = (List.range (num_node ds dpn).toNat).map (node_target dpn) := by
  constructor
  · unfold main_iteration_events kmeans_calls
    simp only [List.filter_append]
    rw [filter_map_all _ _ (fun _ => rfl)]
    simp [Ev.isCall]
  · unfold kmeans_calls num_data_per_node
    rw [List.filterMap_map]
    induction (List.range (num_node ds dpn).toNat) with
    | nil => rfl
    | cons a l ih =>
      rw [List.filterMap_cons]
      simp only [Function.comp, Ev.target?, List.map_cons]
      rw [ih]

theorem main_iteration_events_reduce_new (ds dpn : Int) (centers : Buf) (it : Nat) :
    ((main_iteration_events ds dpn centers it).filter
      (Ev.isReduceNew (Lco.position_reduce it) (num_node ds dpn))).length = 1 ∧
    ((main_iteration_events ds dpn centers it).filter
      (Ev.isReduceNew (Lco.count_reduce it) (num_node ds dpn))).length = 1 := by
  constructor
  · unfold main_iteration_events kmeans_calls
    simp only [List.filter_append]
    rw [filter_map_none _ _ (fun _ => rfl)]
    simp [Ev.isReduceNew]
  · unfold main_iteration_events kmeans_calls
    simp only [List.filter_append]
    rw [filter_map_none _ _ (fun _ => rfl)]
    simp [Ev.isReduceNew]

theorem main_handler_trace (env : Env) (centers0 : Buf) :
    ∃ cs : List Buf, cs.length = MAX_ITERATION.toNat ∧
      (main_handler env centers0).trace
        = main_prologue DATA_SIZE DATA_PER_NODE
          ++ ((cs.enumFrom 0).map
              (fun p => main_iteration_events DATA_SIZE DATA_PER_NODE p.2 p.1)).flatten
          ++ [Ev.exit] := by
  obtain ⟨cs, hlen, htr, _, _⟩ := main_loop_trace env DATA_SIZE DATA_PER_NODE
    MAX_ITERATION.toNat
    { centers := memcpy centers0 env.memget sizeof_centers
      num_changes := 1
      num_iteration := 0
      trace := main_prologue DATA_SIZE DATA_PER_NODE } rfl (le_refl 0)
    (show (0 : Int) + ((MAX_ITERATION.toNat : Nat) : Int) = MAX_ITERATION by decide)
  refine ⟨cs, hlen, ?_⟩
  show (main_loop env DATA_SIZE DATA_PER_NODE MAX_ITERATION.toNat _).trace ++ [Ev.exit] = _
  rw [htr]
  rfl

/-- C7. The driver loop of `main_handler` runs `MAX_ITERATION` iterations.  In every
iteration the two reductions are created with expected count `num_node`, the
`kmeans_action` calls issued are exactly one per node index `0 .. num_node-1`, each
carrying the two reductions of the iteration; every execution of `kmeans_handler` (for
every `size`) calls set exactly once on its `position_reduce` and then exactly once on
its `count_reduce`; so each reduction receives exactly `num_node` sets. -/
theorem reductions_receive_num_node_sets :
    (∀ (env : Env) (centers0 : Buf), ∃ cs : List Buf, cs.length = MAX_ITERATION.toNat ∧
      (main_handler env centers0).trace
        = main_prologue DATA_SIZE DATA_PER_NODE
          ++ ((cs.enumFrom 0).map
              (fun p => main_iteration_events DATA_SIZE DATA_PER_NODE p.2 p.1)).flatten
          ++ [Ev.exit]) ∧
    (∀ (centers : Buf) (it : Nat),
      ((main_iteration_events DATA_SIZE DATA_PER_NODE centers it).filter
        (Ev.isReduceNew (Lco.position_reduce it)
          (num_node DATA_SIZE DATA_PER_NODE))).length = 1 ∧
      ((main_iteration_events DATA_SIZE DATA_PER_NODE centers it).filter
        (Ev.isReduceNew (Lco.count_reduce it)
          (num_node DATA_SIZE DATA_PER_NODE))).length = 1 ∧
      (main_iteration_events DATA_SIZE DATA_PER_NODE centers it).filter
          (Ev.isCall Action.kmeans_action)
        = kmeans_calls DATA_SIZE DATA_PER_NODE (Lco.position_reduce it) (Lco.count_reduce it) ∧
      (kmeans_calls DATA_SIZE DATA_PER_NODE (Lco.position_reduce it)
          (Lco.count_reduce it)).filterMap Ev.target?
        = (List.range (num_node DATA_SIZE DATA_PER_NODE).toNat).map
            (node_target DATA_PER_NODE)) ∧
    (∀ (centers datachunk : Buf) (size : Int) (pr cr : Lco) (uninit : KmState),
      (kmeans_handler centers datachunk size pr cr uninit).sets
        = [Ev.lco_set pr ((K * 2 * sizeof_float : Nat) : Int)
            (kmeans_handler centers datachunk size pr cr uninit).state.sum,
           Ev.lco_set cr ((K * sizeof_int : Nat) : Int)
            (kmeans_handler centers datachunk size pr cr uninit).state.count] ∧
      (kmeans_handler centers datachunk size pr cr uninit).status = HpxStatus.HPX_SUCCESS) ∧
    (∀ (node : Target → NodeMem) (centers : Buf) (it : Nat),
      ((sets_received node (main_iteration_events DATA_SIZE DATA_PER_NODE centers it)
        (Lco.position_reduce it) : Nat) : Int) = num_node DATA_SIZE DATA_PER_NODE ∧
      ((sets_received node (main_iteration_events DATA_SIZE DATA_PER_NODE centers it)
        (Lco.count_reduce it) : Nat) : Int) = num_node DATA_SIZE DATA_PER_NODE) := by
  refine ⟨main_handler_trace, ?_, ?_, ?_⟩
  · intro centers it
    obtain ⟨r1, r2⟩ := main_iteration_events_reduce_new DATA_SIZE DATA_PER_NODE centers it
    obtain ⟨c1, c2⟩ := main_iteration_events_calls DATA_SIZE DATA_PER_NODE centers it
    exact ⟨r1, r2, c1, c2⟩
  · intro centers datachunk size pr cr uninit
    exact ⟨rfl, rfl⟩
  · intro node centers it
    obtain ⟨s1, s2⟩ := sets_received_iteration node DATA_SIZE DATA_PER_NODE centers it
    have hn : ((num_node DATA_SIZE DATA_PER_NODE).toNat : Int)
        = num_node DATA_SIZE DATA_PER_NODE := by decide
    rw [s1, s2]
    exact ⟨hn, hn⟩


/-! ## The partition in general -/

theorem sum_map_range_const (f : Nat → Int) (c : Int) (m : Nat) (h : ∀ i, i < m → f i = c) :
    ((List.range m).map f).sum = (m : Int) * c := by
  induction m with
  | zero => simp
  | succ m ih =>
    rw [List.range_succ, List.map_append, List.sum_append, ih (fun i hi => h i (by omega))]
    simp only [List.map_cons, List.map_nil, List.sum_cons, List.sum_nil, add_zero]
    rw [h m (by omega)]
    push_cast
    ring

/-- For positive `DATA_PER_NODE <= DATA_SIZE` the sizes passed to the nodes are at least 1
and add up to `DATA_SIZE`; the last node gets `DATA_PER_NODE` plus the remainder of the
division, so the sizes stay within the block exactly when the remainder is zero. -/
theorem partition_sizes (ds dpn : Int) (hpos : 0 < dpn) (hle : dpn ≤ ds) :
    1 ≤ num_node ds dpn ∧
    (node_sizes ds dpn).sum = ds ∧
    (∀ s ∈ node_sizes ds dpn, 1 ≤ s) ∧
    num_data_last_node ds dpn = dpn + ds % dpn ∧
    (ds % dpn = 0 → ∀ s ∈ node_sizes ds dpn, s = dpn) := by
  have hn : num_node ds dpn = ds / dpn := by
    rw [num_node_eq, Int.tdiv_eq_ediv (by omega) (by omega)]
  have hdm : dpn * (ds / dpn) + ds % dpn = ds := Int.ediv_add_emod ds dpn
  have hm0 : 0 ≤ ds % dpn := Int.emod_nonneg ds (by omega)
  have hm1 : ds % dpn < dpn := Int.emod_lt_of_pos ds hpos
  have h1 : 1 ≤ ds / dpn := by
    by_contra hc
    have hq : ds / dpn ≤ 0 := by omega
    have : dpn * (ds / dpn) ≤ 0 := Int.mul_nonpos_of_nonneg_of_nonpos (by omega) hq
    omega
  have hlast : num_data_last_node ds dpn = dpn + ds % dpn := by
    unfold num_data_last_node
    rw [hn]
    have : (ds / dpn - 1) * dpn = dpn * (ds / dpn) - dpn := by ring
    omega
  obtain ⟨m, hm⟩ : ∃ m : Nat, (ds / dpn).toNat = m + 1 := ⟨(ds / dpn).toNat - 1, by omega⟩
  have hmi : ((m : Int)) = ds / dpn - 1 := by omega
  have hsz : ∀ i, i < m → node_size ds dpn i = dpn := by
    intro i hi
    unfold node_size num_data_per_node
    rw [hn, if_pos (by omega)]
  have hszl : node_size ds dpn m = num_data_last_node ds dpn := by
    unfold node_size
    rw [hn, if_neg (by omega)]
  have hlist : node_sizes ds dpn
      = (List.range m).map (node_size ds dpn) ++ [num_data_last_node ds dpn] := by
    unfold node_sizes
    rw [hn, hm, List.range_succ, List.map_append, List.map_cons, List.map_nil, hszl]
  have hmem : ∀ s ∈ node_sizes ds dpn, s = dpn ∨ s = num_data_last_node ds dpn := by
    intro s hs
    rw [hlist, List.mem_append, List.mem_map, List.mem_singleton] at hs
    rcases hs with ⟨i, hi, rfl⟩ | hs
    · left
      exact hsz i (List.mem_range.mp hi)
    · right
      exact hs
  refine ⟨by rw [hn]; exact h1, ?_, ?_, hlast, ?_⟩
  · rw [hlist, List.sum_append, sum_map_range_const _ dpn m hsz]
    simp only [List.sum_cons, List.sum_nil, add_zero]
    rw [hlast, hmi]
    have : (ds / dpn - 1) * dpn = dpn * (ds / dpn) - dpn := by ring
    omega
  · intro s hs
    rcases hmem s hs with h | h <;> omega
  · intro hz s hs
    rcases hmem s hs with h | h <;> omega

/-- The partition theorem at `DATA_SIZE = 25`, `DATA_PER_NODE = 10`. -/
theorem partition_sizes_witness :
    ((0 : Int) < 10 ∧ (10 : Int) ≤ 25) ∧ (node_sizes 25 10).sum = 25 :=
  ⟨⟨by decide, by decide⟩, (partition_sizes 25 10 (by decide) (by decide)).2.1⟩

end Kmeans
namespace Passing
open Kmeans

/-! ## The gate in general -/

theorem completions_worker_call (n : Nat) (t : Target) (l r : Lco) (a b : Int)
    (ls : List Lco) :
    completions n (Ev.call t Action.worker_action l r [a, b] ls) = [r, r] := rfl

theorem count_arrivals_calls (f : Nat → Ev Action Lco) (h : ∀ i, ∃ t a b,
    f i = Ev.call t Action.worker_action Lco.null Lco.and_lco [a, b] []) (l : List Nat) :
    ∀ k, (((l.map f).enumFrom k).map (fun p => completions p.1 p.2)).flatten.count Lco.and_lco
      = 2 * l.length := by
  induction l with
  | nil =>
    intro k
    rfl
  | cons i l ih =>
    intro k
    obtain ⟨t, a, b, hf⟩ := h i
    simp only [List.map_cons, List.enumFrom_cons, List.flatten_cons, List.count_append,
      List.length_cons, ih (k + 1), hf, completions_worker_call]
    simp only [List.count_cons_self, List.count_nil]
    omega

/-- For every `total_rank` the gate created for `total_rank * NUM_TRY` signals receives
twice that many: one from each `worker_action` return and one from each `job_action`
completion. -/
theorem gate_signals_twice_expected (total_rank : Int) (h : 0 ≤ total_rank) :
    ((gate_signals total_rank : Nat) : Int) = 2 * gate_expected total_rank := by
  have hcalls : ∀ m : Nat, (List.range m).flatMap (fun i =>
      (List.range NUM_TRY.toNat).map (fun _ =>
        (Ev.call (Target.there (i : Int)) Action.worker_action Lco.null Lco.and_lco
          [(i : Int), total_rank] [] : Ev Action Lco)))
      = (((List.range m).flatMap (fun i => List.replicate NUM_TRY.toNat i)).map
        (fun (i : Nat) =>
          (Ev.call (Target.there (i : Int)) Action.worker_action Lco.null Lco.and_lco
            [(i : Int), total_rank] [] : Ev Action Lco))) := by
    intro m
    induction m with
    | zero => rfl
    | succ m ih =>
      rw [List.range_succ, List.flatMap_append, List.flatMap_append, List.map_append, ih]
      simp only [List.flatMap_cons, List.flatMap_nil, List.append_nil, List.map_replicate,
        List.map_const', List.length_range]
  have hlen : ∀ m : Nat, ((List.range m).flatMap (fun i => List.replicate NUM_TRY.toNat i)).length
      = m * NUM_TRY.toNat := by
    intro m
    induction m with
    | zero => simp
    | succ m ih =>
      rw [List.range_succ, List.flatMap_append, List.length_append, ih]
      simp only [List.flatMap_cons, List.flatMap_nil, List.append_nil, List.length_replicate]
      ring
  unfold gate_signals arrivals main_action_handler gate_expected
  rw [hcalls]
  simp only [List.enum, List.cons_append, List.nil_append, List.enumFrom_cons,
    List.enumFrom_append, List.map_cons, List.map_append, List.flatten_cons,
    List.flatten_append, List.count_append, List.enumFrom_nil, List.map_nil,
    List.flatten_nil]
  rw [count_arrivals_calls
    (fun (i : Nat) =>
      (Ev.call (Target.there (i : Int)) Action.worker_action Lco.null Lco.and_lco
        [(i : Int), total_rank] [] : Ev Action Lco))
    (fun i => ⟨_, _, _, rfl⟩), hlen]
  simp only [completions, List.count_nil, List.nil_append]
  have h10 : NUM_TRY.toNat = 10 := by decide
  have hN : NUM_TRY = 10 := by decide
  rw [h10, hN]
  push_cast
  omega

/-- The general count at `total_rank = 4`. -/
theorem gate_signals_twice_expected_witness :
    (0 : Int) ≤ 4 ∧ ((gate_signals 4 : Nat) : Int) = 2 * gate_expected 4 :=
  ⟨by decide, gate_signals_twice_expected 4 (by decide)⟩

end Passing
namespace Kmeans


/-! ## The assignment loop of `kmeans_handler` -/

theorem nearest_step_fst (centers data : Buf) (i : Nat) (st : Nat × Nat) (j : Nat) :
    (nearest_step centers data i st j).1 = st.1 ∨ (nearest_step centers data i st j).1 = j := by
  unfold nearest_step
  simp only
  split
  · right
    rfl
  · left
    rfl

theorem nearest_steps_fst_lt (centers data : Buf) (i n : Nat) (js : List Nat)
    (hjs : ∀ j ∈ js, j < n) :
    ∀ st : Nat × Nat, st.1 < n → (js.foldl (nearest_step centers data i) st).1 < n := by
  induction js with
  | nil =>
    intro st h
    exact h
  | cons j js ih =>
    intro st h
    rw [List.foldl_cons]
    apply ih (fun j' hj' => hjs j' (List.mem_cons_of_mem _ hj'))
    rcases nearest_step_fst centers data i st j with e | e
    · rw [e]
      exact h
    · rw [e]
      exact hjs j (List.mem_cons_self _ _)

/-- The cluster index chosen by the inner loop lies in `[0, K)`. -/
theorem nearest_fst_lt (centers data : Buf) (i : Nat) : (nearest centers data i).1 < K := by
  unfold nearest
  apply nearest_steps_fst_lt
  · intro j hj
    rw [List.mem_range'_1] at hj
    have hK : 0 < K := by decide
    omega
  · show 0 < K
    decide

theorem sum_map_range_update (f g : Nat → Int) (n m : Nat) (d : Int) (hm : m < n)
    (hsame : ∀ c, c ≠ m → g c = f c) (hat : g m = f m + d) :
    ((List.range n).map g).sum = ((List.range n).map f).sum + d := by
  induction n with
  | zero => exact absurd hm (Nat.not_lt_zero m)
  | succ n ih =>
    rw [List.range_succ, List.map_append, List.map_append, List.sum_append, List.sum_append]
    simp only [List.map_cons, List.map_nil, List.sum_cons, List.sum_nil, add_zero]
    by_cases h : m = n
    · subst h
      have e : (List.range m).map g = (List.range m).map f := by
        apply List.map_congr_left
        intro c hc
        rw [List.mem_range] at hc
        exact hsame c (by omega)
      rw [e, hat]
      ring
    · rw [ih (by omega), hsame n (fun hc => h hc.symm)]
      ring

/-- The counts after the first `n` points: none is negative and they add up to `n`, as long
as `n` fits an `int`. -/
theorem assign_loop_counts (centers data : Buf) (st0 : KmState)
    (h0 : ∀ c, c < K → ld_int st0.count c = 0) (n : Nat) (hn : n < 2147483648) :
    (∀ c, c < K → 0 ≤ ld_int ((List.range n).foldl (assign_step centers data) st0).count c) ∧
    ((List.range K).map
      (fun c => ld_int ((List.range n).foldl (assign_step centers data) st0).count c)).sum
      = (n : Int) := by
  induction n with
  | zero =>
    constructor
    · intro c hc
      rw [List.range_zero, List.foldl_nil, h0 c hc]
    · rw [List.range_zero, List.foldl_nil]
      have : (List.range K).map (fun c => ld_int st0.count c)
          = (List.range K).map (fun _ => (0 : Int)) := by
        apply List.map_congr_left
        intro c hc
        exact h0 c (List.mem_range.mp hc)
      rw [this]
      simp
  | succ n ih =>
    obtain ⟨ih1, ih2⟩ := ih (by omega)
    rw [List.range_succ, List.foldl_append]
    simp only [List.foldl_cons, List.foldl_nil]
    rw [assign_step_count]
    have hm := nearest_fst_lt centers data n
    have hle : ld_int ((List.range n).foldl (assign_step centers data) st0).count
        (nearest centers data n).1 ≤ (n : Int) := by
      have hmem : ld_int ((List.range n).foldl (assign_step centers data) st0).count
          (nearest centers data n).1 ∈ (List.range K).map
            (fun c => ld_int ((List.range n).foldl (assign_step centers data) st0).count c) :=
        List.mem_map.mpr ⟨_, List.mem_range.mpr hm, rfl⟩
      have hnn : ∀ x ∈ (List.range K).map
          (fun c => ld_int ((List.range n).foldl (assign_step centers data) st0).count c),
          0 ≤ x := by
        intro x hx
        obtain ⟨c, hc, rfl⟩ := List.mem_map.mp hx
        exact ih1 c (List.mem_range.mp hc)
      have := List.single_le_sum hnn _ hmem
      rw [ih2] at this
      exact this
    have hnew : ld_int (st_int ((List.range n).foldl (assign_step centers data) st0).count
        (nearest centers data n).1
        (ld_int ((List.range n).foldl (assign_step centers data) st0).count
          (nearest centers data n).1 + 1)) (nearest centers data n).1
        = ld_int ((List.range n).foldl (assign_step centers data) st0).count
          (nearest centers data n).1 + 1 := by
      rw [ld_int_st_int_same]
      apply wrap32_id
      have := ih1 _ hm
      constructor <;> omega
    constructor
    · intro c hc
      by_cases hcm : c = (nearest centers data n).1
      · rw [hcm, hnew]
        have := ih1 _ hm
        omega
      · rw [ld_int_st_int_other _ _ _ _ hcm]
        exact ih1 c hc
    · rw [sum_map_range_update
        (fun c => ld_int ((List.range n).foldl (assign_step centers data) st0).count c) _ K
        (nearest centers data n).1 1 hm
        (fun c hc => ld_int_st_int_other _ _ _ _ hc) hnew, ih2]
      push_cast
      ring


/-- The labels after the first `n` points: `label[i]` is the cluster chosen for point `i`. -/
theorem assign_loop_labels (centers data : Buf) (st0 : KmState) (n : Nat) :
    ∀ i, i < n →
      ld_int ((List.range n).foldl (assign_step centers data) st0).label i
        = (((nearest centers data i).1 : Nat) : Int) := by
  induction n with
  | zero =>
    intro i hi
    exact absurd hi (Nat.not_lt_zero i)
  | succ n ih =>
    intro i hi
    rw [List.range_succ, List.foldl_append]
    simp only [List.foldl_cons, List.foldl_nil]
    rw [assign_step_label]
    by_cases hin : i = n
    · subst hin
      rw [ld_int_st_int_same]
      apply wrap32_id
      have hm := nearest_fst_lt centers data i
      have hK : K = 100 := rfl
      constructor <;> omega
    · rw [ld_int_st_int_other _ _ _ _ hin]
      exact ih i (by omega)

/-- The arrays of `kmeans_handler` when it returns: the assignment loop run over the
`size` points, from `count` and `sum` zeroed and `label` filled with `-1`. -/
theorem kmeans_handler_state (centers datachunk : Buf) (size : Int) (pr cr : Lco)
    (uninit : KmState) :
    (kmeans_handler centers datachunk size pr cr uninit).state
      = (List.range size.toNat).foldl (assign_step centers datachunk)
          { count := set_zero_handler uninit.count (K * sizeof_int)
            sum := set_zero_handler uninit.sum (K * 2 * sizeof_float)
            label := (List.range size.toNat).foldl
              (fun label i => st_int label i (-1)) uninit.label } := rfl

/-! ## C11: the partial result of `kmeans_handler` conserves its points -/

/-- C11. For every `size >= 0` (an `int`, so below `2^31`), every data chunk, every content
of `centers` and of the handler's arrays before their initialisation: when
`kmeans_handler` returns, `label[i]` of every point `i < size` is the cluster index the
inner loop chose for it and lies in `[0, K)`, every `count[c]`, `c < K`, is non-negative,
the sum of `count[c]` over all `c` in `[0, K)` equals `size`, and this `count` is the
payload the handler sets on `count_reduce`. -/
theorem kmeans_handler_conserves_points (centers datachunk : Buf) (size : Int)
    (pr cr : Lco) (uninit : KmState) (h0 : 0 ≤ size) (hmax : size < 2147483648) :
    (∀ i : Nat, (i : Int) < size →
      ld_int (kmeans_handler centers datachunk size pr cr uninit).state.label i
        = (((nearest centers datachunk i).1 : Nat) : Int) ∧
      0 ≤ ld_int (kmeans_handler centers datachunk size pr cr uninit).state.label i ∧
      ld_int (kmeans_handler centers datachunk size pr cr uninit).state.label i
        < ((K : Nat) : Int)) ∧
    (∀ c, c < K →
      0 ≤ ld_int (kmeans_handler centers datachunk size pr cr uninit).state.count c) ∧
    ((List.range K).map
      (fun c => ld_int (kmeans_handler centers datachunk size pr cr uninit).state.count c)).sum
      = size ∧
    (kmeans_handler centers datachunk size pr cr uninit).sets
      = [Ev.lco_set pr ((K * 2 * sizeof_float : Nat) : Int)
          (kmeans_handler centers datachunk size pr cr uninit).state.sum,
         Ev.lco_set cr ((K * sizeof_int : Nat) : Int)
          (kmeans_handler centers datachunk size pr cr uninit).state.count] := by
  have hn : size.toNat < 2147483648 := by omega
  have hsz : ((size.toNat : Nat) : Int) = size := Int.toNat_of_nonneg h0
  obtain ⟨c1, c2⟩ := assign_loop_counts centers datachunk
    { count := set_zero_handler uninit.count (K * sizeof_int)
      sum := set_zero_handler uninit.sum (K * 2 * sizeof_float)
      label := (List.range size.toNat).foldl
        (fun label i => st_int label i (-1)) uninit.label }
    (fun c hc => set_zero_handler_int uninit.count K c hc) size.toNat hn
  have hl := assign_loop_labels centers datachunk
    { count := set_zero_handler uninit.count (K * sizeof_int)
      sum := set_zero_handler uninit.sum (K * 2 * sizeof_float)
      label := (List.range size.toNat).foldl
        (fun label i => st_int label i (-1)) uninit.label } size.toNat
  refine ⟨?_, ?_, ?_, rfl⟩
  · intro i hi
    have e := hl i (by omega)
    have hm := nearest_fst_lt centers datachunk i
    rw [kmeans_handler_state, e]
    refine ⟨rfl, by omega, by omega⟩
  · rw [kmeans_handler_state]
    exact c1
  · rw [kmeans_handler_state, c2, hsz]

/-- C11 at a concrete input: two points, `(0.0, 0.0)` and a second one read from the zero
bytes after it, with every center at `(10.0, 0.0)`. -/
theorem kmeans_handler_conserves_points_witness :
    ((0 : Int) ≤ 2 ∧ (2 : Int) < 2147483648) ∧
    ((List.range K).map
      (fun c => ld_int (kmeans_handler (rows_all (f_lit 10 1) 0 (fun _ => 0)) (float_pair 0 0)
        2 (Lco.position_reduce 0) (Lco.count_reduce 0)
        { count := fun _ => 255, sum := fun _ => 255, label := fun _ => 255 }).state.count
        c)).sum = 2 :=
  ⟨⟨by decide, by decide⟩,
   (kmeans_handler_conserves_points (rows_all (f_lit 10 1) 0 (fun _ => 0)) (float_pair 0 0)
      2 (Lco.position_reduce 0) (Lco.count_reduce 0)
      { count := fun _ => 255, sum := fun _ => 255, label := fun _ => 255 }
      (by decide) (by decide)).2.2.1⟩


/-! ## The centers `main_handler` computes -/

theorem main_body_centers (env : Env) (ds dpn : Int) (st : MainState) :
    (main_body env ds dpn st).centers
      = update_centers st.centers (env.positions st.num_iteration.toNat)
          (env.count st.num_iteration.toNat) := rfl

theorem main_handler_with_start (env : Env) (ds dpn : Int) (centers0 : Buf) :
    (main_handler_with env ds dpn centers0).centers
      = (main_loop env ds dpn MAX_ITERATION.toNat (main_start env ds dpn centers0)).centers := by
  unfold main_handler_with main_start
  simp only

/-- The centers the loop ends with are those written by its last pass, the one entered
with `num_iteration = MAX_ITERATION - 1`. -/
theorem main_loop_last_update (env : Env) (ds dpn : Int) (fuel : Nat) :
    ∀ st : MainState, st.num_changes = 1 → 0 ≤ st.num_iteration →
    st.num_iteration + ((fuel + 1 : Nat) : Int) = MAX_ITERATION →
    ∃ c : Buf, (main_loop env ds dpn (fuel + 1) st).centers
      = update_centers c (env.positions 9) (env.count 9) := by
  have hM : MAX_ITERATION = 10 := rfl
  induction fuel with
  | zero =>
    intro st hc h0 hn
    have hlt : st.num_iteration < MAX_ITERATION ∧ st.num_changes > 0 := by
      constructor
      · push_cast at hn
        omega
      · rw [hc]
        decide
    have h9 : st.num_iteration.toNat = 9 := by
      push_cast at hn
      omega
    refine ⟨st.centers, ?_⟩
    unfold main_loop
    rw [if_pos hlt]
    unfold main_loop
    rw [main_body_centers, h9]
  | succ fuel ih =>
    intro st hc h0 hn
    have hlt : st.num_iteration < MAX_ITERATION ∧ st.num_changes > 0 := by
      constructor
      · push_cast at hn
        omega
      · rw [hc]
        decide
    obtain ⟨c, hcen⟩ := ih (main_body env ds dpn st) hc
      (by show 0 ≤ st.num_iteration + 1; omega)
      (by show st.num_iteration + 1 + ((fuel + 1 : Nat) : Int) = MAX_ITERATION
          push_cast at hn ⊢
          omega)
    refine ⟨c, ?_⟩
    rw [← hcen]
    conv_lhs => unfold main_loop
    rw [if_pos hlt]

/-- The centers `main_handler` ends with: the update of its last iteration. -/
theorem main_handler_centers (env : Env) (centers0 : Buf) :
    ∃ c : Buf, (main_handler env centers0).centers
      = update_centers c (env.positions 9) (env.count 9) := by
  show ∃ c : Buf, (main_handler_with env DATA_SIZE DATA_PER_NODE centers0).centers = _
  rw [main_handler_with_start]
  exact main_loop_last_update env DATA_SIZE DATA_PER_NODE 9
    (main_start env DATA_SIZE DATA_PER_NODE centers0) rfl (le_refl 0)
    (show (0 : Int) + ((9 + 1 : Nat) : Int) = MAX_ITERATION by decide)


/-! ## A run in which every point and every center is `(0.0, 0.0)` -/

theorem ld32_zeros (k : Nat) : ld32 zeros k = 0 := rfl

theorem calc_distance_sq_zeros (p0 p1 : Nat) : calc_distance_sq zeros p0 zeros p1 = 0 := by
  unfold calc_distance_sq
  simp only [ld32_zeros]
  decide

theorem nearest_zeros (i : Nat) : nearest zeros zeros i = (0, 0) := by
  unfold nearest
  rw [calc_distance_sq_zeros]
  exact nearest_steps_at_zero _ _ _ _ _

theorem assign_step_sum (centers data : Buf) (st : KmState) (i : Nat) :
    (assign_step centers data st i).sum
      = st32
          (st32 st.sum (idx2 (nearest centers data i).1 0)
            (fadd (ld32 st.sum (idx2 (nearest centers data i).1 0)) (ld32 data (2 * i))))
          (idx2 (nearest centers data i).1 1)
          (fadd
            (ld32
              (st32 st.sum (idx2 (nearest centers data i).1 0)
                (fadd (ld32 st.sum (idx2 (nearest centers data i).1 0)) (ld32 data (2 * i))))
              (idx2 (nearest centers data i).1 1))
            (ld32 data (2 * i + 1))) := rfl

/-- When every one of the first `n` points is assigned to cluster `m`, that cluster
counts `n` points and nothing else changes in `count` and `sum`. -/
theorem assign_loop_single_cluster (centers data : Buf) (st0 : KmState) (m : Nat)
    (hm0 : ld_int st0.count m = 0) (n : Nat) (hn : n < 2147483648)
    (hall : ∀ i, i < n → (nearest centers data i).1 = m) :
    ld_int ((List.range n).foldl (assign_step centers data) st0).count m = (n : Int) ∧
    (∀ c, c ≠ m →
      ld_int ((List.range n).foldl (assign_step centers data) st0).count c
        = ld_int st0.count c) ∧
    (∀ k, k ≠ idx2 m 0 → k ≠ idx2 m 1 →
      ld32 ((List.range n).foldl (assign_step centers data) st0).sum k = ld32 st0.sum k) := by
  induction n with
  | zero =>
    refine ⟨?_, fun c _ => rfl, fun k _ _ => rfl⟩
    rw [List.range_zero, List.foldl_nil, hm0]
    rfl
  | succ n ih =>
    obtain ⟨ih1, ih2, ih3⟩ := ih (by omega) (fun i hi => hall i (by omega))
    rw [List.range_succ, List.foldl_append]
    simp only [List.foldl_cons, List.foldl_nil]
    rw [assign_step_count, assign_step_sum, hall n (by omega)]
    refine ⟨?_, ?_, ?_⟩
    · rw [ld_int_st_int_same, ih1]
      rw [wrap32_id _ (by constructor <;> omega)]
      push_cast
      ring
    · intro c hc
      rw [ld_int_st_int_other _ _ _ _ hc]
      exact ih2 c hc
    · intro k hk0 hk1
      rw [ld32_st32_other _ _ _ _ hk1, ld32_st32_other _ _ _ _ hk0]
      exact ih3 k hk0 hk1

/-- The partial result of `kmeans_handler` on a chunk of `size` points `(0.0, 0.0)` when
`centers[0]` is `(0.0, 0.0)` too: all points are counted in cluster 0, every other cluster
is empty and its sum is `(+0.0, +0.0)`. -/
theorem kmeans_handler_zeros (size : Int) (pr cr : Lco) (uninit : KmState)
    (h0 : 0 ≤ size) (hmax : size < 2147483648) :
    ld_int (kmeans_handler zeros zeros size pr cr uninit).state.count 0 = size ∧
    (∀ c, c ≠ 0 → c < K →
      ld_int (kmeans_handler zeros zeros size pr cr uninit).state.count c = 0) ∧
    (∀ k, 2 ≤ k → k < 2 * K →
      ld32 (kmeans_handler zeros zeros size pr cr uninit).state.sum k = 0) := by
  have hK : 0 < K := by decide
  obtain ⟨a, b, c⟩ := assign_loop_single_cluster zeros zeros
    { count := set_zero_handler uninit.count (K * sizeof_int)
      sum := set_zero_handler uninit.sum (K * 2 * sizeof_float)
      label := (List.range size.toNat).foldl
        (fun label i => st_int label i (-1)) uninit.label } 0
    (set_zero_handler_int uninit.count K 0 hK) size.toNat (by omega)
    (fun i _ => by rw [nearest_zeros])
  rw [kmeans_handler_state]
  refine ⟨?_, ?_, ?_⟩
  · rw [a]
    exact Int.toNat_of_nonneg h0
  · intro c' hc hcK
    rw [b c' hc]
    exact set_zero_handler_int uninit.count K c' hcK
  · intro k hk hkK
    rw [c k (by unfold idx2; omega) (by unfold idx2; omega)]
    exact set_zero_handler_word uninit.sum _ k (by unfold sizeof_float; omega)

theorem zero_run_env_count (it : Nat) :
    zero_run_env.count it
      = count_reduce zeros
          ((node_partials zero_node 0 (node_sizes DATA_SIZE DATA_PER_NODE)).map Prod.snd) := by
  unfold zero_run_env env_of_partials
  simp only

theorem zero_run_env_positions (it : Nat) :
    zero_run_env.positions it
      = position_reduce zeros
          ((node_partials zero_node 0 (node_sizes DATA_SIZE DATA_PER_NODE)).map Prod.fst) := by
  unfold zero_run_env env_of_partials
  simp only

theorem node_partials_replicate (node : NodeMem) (it n : Nat) (size : Int) :
    node_partials node it (List.replicate n size)
      = List.replicate n
          ((kmeans_handler node.centers node.datachunk size (Lco.position_reduce it)
              (Lco.count_reduce it) node.uninit).state.sum,
           (kmeans_handler node.centers node.datachunk size (Lco.position_reduce it)
              (Lco.count_reduce it) node.uninit).state.count) := by
  unfold node_partials
  rw [List.map_replicate]

theorem count_reduce_replicate (acc s c : Buf) (n i : Nat) (hi : i < K) :
    ld_int (count_reduce acc ((List.replicate n (s, c)).map Prod.snd)) i
      = wrap32 ((n : Int) * ld_int c i) := by
  rw [(count_reduce_spec _ _).1 i hi]
  simp only [List.map_replicate, List.sum_replicate, nsmul_eq_mul]

theorem foldl_fadd_zeros (n : Nat) : (List.replicate n 0).foldl fadd 0 = 0 := by
  induction n with
  | zero => rfl
  | succ n ih =>
    rw [List.replicate_succ, List.foldl_cons]
    have h : fadd 0 0 = 0 := by decide
    rw [h, ih]

theorem position_reduce_replicate_zero (acc s c : Buf) (n k : Nat)
    (hk : k < 2 * K) (hp : ld32 s k = 0) :
    ld32 (position_reduce acc ((List.replicate n (s, c)).map Prod.fst)) k = 0 := by
  rw [(position_reduce_spec _ _).1 k hk]
  simp only [List.map_replicate]
  rw [hp]
  exact foldl_fadd_zeros n

theorem zero_node_partial_count (c : Nat) (hc : c < K) :
    ld_int (kmeans_handler zero_node.centers zero_node.datachunk 1000000
      (Lco.position_reduce 0) (Lco.count_reduce 0) zero_node.uninit).state.count c
      = if c = 0 then 1000000 else 0 := by
  obtain ⟨a, b, _⟩ := kmeans_handler_zeros 1000000 (Lco.position_reduce 0)
    (Lco.count_reduce 0) zero_node.uninit (by decide) (by decide)
  by_cases h : c = 0
  · rw [if_pos h, h]
    exact a
  · rw [if_neg h]
    exact b c h hc

theorem zero_node_partial_sum (k : Nat) (h2 : 2 ≤ k) (hk : k < 2 * K) :
    ld32 (kmeans_handler zero_node.centers zero_node.datachunk 1000000
      (Lco.position_reduce 0) (Lco.count_reduce 0) zero_node.uninit).state.sum k = 0 :=
  (kmeans_handler_zeros 1000000 (Lco.position_reduce 0)
    (Lco.count_reduce 0) zero_node.uninit (by decide) (by decide)).2.2 k h2 hk

theorem zero_run_count (c : Nat) (hc : c < K) :
    ld_int (zero_run_env.count 0) c = if c = 0 then 10000000 else 0 := by
  have hs : node_sizes DATA_SIZE DATA_PER_NODE = List.replicate 10 1000000 :=
    partition_as_compiled.2
  rw [zero_run_env_count, hs, node_partials_replicate, count_reduce_replicate _ _ _ _ _ hc,
    zero_node_partial_count c hc]
  by_cases h : c = 0
  · rw [if_pos h, if_pos h]
    decide
  · rw [if_neg h, if_neg h]
    decide

theorem zero_run_positions (k : Nat) (h2 : 2 ≤ k) (hk : k < 2 * K) :
    ld32 (zero_run_env.positions 0) k = 0 := by
  have hs : node_sizes DATA_SIZE DATA_PER_NODE = List.replicate 10 1000000 :=
    partition_as_compiled.2
  rw [zero_run_env_positions, hs, node_partials_replicate,
    position_reduce_replicate_zero _ _ _ _ _ hk (zero_node_partial_sum k h2 hk)]

theorem memcpy_zeros (n : Nat) : memcpy zeros zeros n = zeros := by
  funext k
  unfold memcpy
  split <;> rfl

theorem main_start_centers (env : Env) (ds dpn : Int) (centers0 : Buf) :
    (main_start env ds dpn centers0).centers = memcpy centers0 env.memget sizeof_centers := rfl

theorem main_start_num_iteration (env : Env) (ds dpn : Int) (centers0 : Buf) :
    (main_start env ds dpn centers0).num_iteration = 0 := rfl

theorem main_start_num_changes (env : Env) (ds dpn : Int) (centers0 : Buf) :
    (main_start env ds dpn centers0).num_changes = 1 := rfl

/-- One pass of the `while` loop whose condition holds. -/
theorem main_loop_step (env : Env) (ds dpn : Int) (fuel : Nat) (st : MainState)
    (h : st.num_iteration < MAX_ITERATION ∧ st.num_changes > 0) :
    main_loop env ds dpn (fuel + 1) st = main_loop env ds dpn fuel (main_body env ds dpn st) := by
  conv_lhs => unfold main_loop
  rw [if_pos h]

/-- The first pass of the loop of `main_handler` is `main_body` on the state the loop is
entered with. -/
theorem main_handler_first_pass (env : Env) (centers0 : Buf) :
    (main_handler env centers0).centers
      = (main_loop env DATA_SIZE DATA_PER_NODE 9
          (main_body env DATA_SIZE DATA_PER_NODE
            (main_start env DATA_SIZE DATA_PER_NODE centers0))).centers := by
  show (main_handler_with env DATA_SIZE DATA_PER_NODE centers0).centers = _
  rw [main_handler_with_start]
  have h : (main_start env DATA_SIZE DATA_PER_NODE centers0).num_iteration < MAX_ITERATION ∧
      (main_start env DATA_SIZE DATA_PER_NODE centers0).num_changes > 0 := by
    rw [main_start_num_iteration, main_start_num_changes]
    decide
  exact congrArg MainState.centers
    (main_loop_step env DATA_SIZE DATA_PER_NODE 9
      (main_start env DATA_SIZE DATA_PER_NODE centers0) h)

/-- Every pass of the loop assigns both coordinates of every center, whatever `count[i]`
is. -/
theorem main_body_centers_spec (env : Env) (ds dpn : Int) (st : MainState) (i : Nat)
    (hi : i < K) :
    ld32 (main_body env ds dpn st).centers (idx2 i 0)
      = fdiv (ld32 (env.positions st.num_iteration.toNat) (idx2 i 0))
          (int_to_float (ld_int (env.count st.num_iteration.toNat) i)) ∧
    ld32 (main_body env ds dpn st).centers (idx2 i 1)
      = fdiv (ld32 (env.positions st.num_iteration.toNat) (idx2 i 1))
          (int_to_float (ld_int (env.count st.num_iteration.toNat) i)) := by
  rw [main_body_centers]
  exact (update_centers_spec _ _ _).1 i hi

/-- The centers `main_handler` ends with are the quotients of its last iteration. -/
theorem main_handler_centers_spec (env : Env) (centers0 : Buf) (i : Nat) (hi : i < K) :
    ld32 (main_handler env centers0).centers (idx2 i 0)
      = fdiv (ld32 (env.positions 9) (idx2 i 0)) (int_to_float (ld_int (env.count 9) i)) ∧
    ld32 (main_handler env centers0).centers (idx2 i 1)
      = fdiv (ld32 (env.positions 9) (idx2 i 1)) (int_to_float (ld_int (env.count 9) i)) := by
  obtain ⟨c, h⟩ := main_handler_centers env centers0
  rw [h]
  exact (update_centers_spec _ _ _).1 i hi

theorem env_of_partials_positions (memget acc_p acc_c : Buf) (partials : List (Buf × Buf))
    (it : Nat) :
    (env_of_partials memget acc_p acc_c partials).positions it
      = position_reduce acc_p (partials.map Prod.fst) := rfl

theorem env_of_partials_count (memget acc_p acc_c : Buf) (partials : List (Buf × Buf))
    (it : Nat) :
    (env_of_partials memget acc_p acc_c partials).count it
      = count_reduce acc_c (partials.map Prod.snd) := rfl

/-- The totals the two reductions hold, read per cluster. -/
theorem reduce_totals (acc_p acc_c : Buf) (partials : List (Buf × Buf)) (i : Nat)
    (hi : i < K) :
    ld32 (position_reduce acc_p (partials.map Prod.fst)) (idx2 i 0)
      = (partials.map (fun p => ld32 p.1 (idx2 i 0))).foldl fadd 0 ∧
    ld32 (position_reduce acc_p (partials.map Prod.fst)) (idx2 i 1)
      = (partials.map (fun p => ld32 p.1 (idx2 i 1))).foldl fadd 0 ∧
    ld_int (count_reduce acc_c (partials.map Prod.snd)) i
      = wrap32 ((partials.map (fun p => ld_int p.2 i)).sum) := by
  obtain ⟨hp, _⟩ := position_reduce_spec acc_p (partials.map Prod.fst)
  obtain ⟨hc, _⟩ := count_reduce_spec acc_c (partials.map Prod.snd)
  refine ⟨?_, ?_, ?_⟩
  · rw [hp _ (by unfold idx2; omega), List.map_map]
    rfl
  · rw [hp _ (by unfold idx2; omega), List.map_map]
    rfl
  · rw [hc i hi, List.map_map]
    rfl


/-! ## C2: totals of the two reductions and the centroid update of `main_handler` -/

theorem example_totals (acc_p acc_c : Buf) :
    ld32 (position_reduce acc_p
        [cluster0_sum (f_lit 10 1) (f_lit 20 1), cluster0_sum (f_lit 5 1) (f_lit 0 1)])
        (idx2 0 0) = f_lit 15 1 ∧
    ld32 (position_reduce acc_p
        [cluster0_sum (f_lit 10 1) (f_lit 20 1), cluster0_sum (f_lit 5 1) (f_lit 0 1)])
        (idx2 0 1) = f_lit 20 1 ∧
    ld_int (count_reduce acc_c [cluster0_count 3, cluster0_count 1]) 0 = 4 := by
  have hK : 0 < K := by decide
  obtain ⟨hp, _⟩ := position_reduce_spec acc_p
    [cluster0_sum (f_lit 10 1) (f_lit 20 1), cluster0_sum (f_lit 5 1) (f_lit 0 1)]
  obtain ⟨hc, _⟩ := count_reduce_spec acc_c [cluster0_count 3, cluster0_count 1]
  have e0 := hp (idx2 0 0) (by decide)
  have e1 := hp (idx2 0 1) (by decide)
  have ec := hc 0 hK
  simp only [List.map_cons, List.map_nil, List.foldl_cons, List.foldl_nil] at e0 e1
  have v0 : fadd (fadd 0 (ld32 (cluster0_sum (f_lit 10 1) (f_lit 20 1)) (idx2 0 0)))
      (ld32 (cluster0_sum (f_lit 5 1) (f_lit 0 1)) (idx2 0 0)) = f_lit 15 1 := by decide
  have v1 : fadd (fadd 0 (ld32 (cluster0_sum (f_lit 10 1) (f_lit 20 1)) (idx2 0 1)))
      (ld32 (cluster0_sum (f_lit 5 1) (f_lit 0 1)) (idx2 0 1)) = f_lit 20 1 := by decide
  have vc : wrap32 (([cluster0_count 3, cluster0_count 1].map (fun p => ld_int p 0)).sum)
      = 4 := by decide
  rw [v0] at e0
  rw [v1] at e1
  rw [vc] at ec
  exact ⟨e0, e1, ec⟩

theorem example_quotients :
    fdiv (f_lit 15 1) (int_to_float 4) = f_lit 375 100 ∧
    fdiv (f_lit 20 1) (int_to_float 4) = f_lit 5 1 := by
  constructor <;> decide

/-- C2. For every list of per-node partials `(sum, count)`, the position and count
reductions started from a zeroed accumulator hold the element-wise totals (the `float`
sums accumulated in arrival order from `+0.0`, the `int` sums with 32-bit wraparound).
The update sets center `i` to `(positions[i][0] / count[i], positions[i][1] / count[i])`
whenever `count[i]` is non-zero: so does `update_centers`, so does every pass `main_body`
of the loop of `main_handler` with the results the two `hpx_lco_get` of that pass
deliver, and so do the centers `main_handler` ends with, with the results of its last
iteration (`num_iteration = 9`); when the results delivered are the reductions of the
partials, the center is the quotient of the totals.  The partials
`(sum = [10.0, 20.0], count = 3)`, `(sum = [5.0, 0.0], count = 1)` of cluster 0 combine
to `(sum = [15.0, 20.0], count = 4)`, from which `update_centers`, every pass of the loop
and `main_handler` compute the centroid `(3.75, 5.0)`. -/
theorem reduction_totals_and_centroid_update :
    (∀ (acc_p acc_c : Buf) (partials : List (Buf × Buf)) (i : Nat), i < K →
      ld32 (position_reduce acc_p (partials.map Prod.fst)) (idx2 i 0)
        = (partials.map (fun p => ld32 p.1 (idx2 i 0))).foldl fadd 0 ∧
      ld32 (position_reduce acc_p (partials.map Prod.fst)) (idx2 i 1)
        = (partials.map (fun p => ld32 p.1 (idx2 i 1))).foldl fadd 0 ∧
      ld_int (count_reduce acc_c (partials.map Prod.snd)) i
        = wrap32 ((partials.map (fun p => ld_int p.2 i)).sum)) ∧
    (∀ (centers positions count : Buf) (i : Nat), i < K → ld_int count i ≠ 0 →
      ld32 (update_centers centers positions count) (idx2 i 0)
        = fdiv (ld32 positions (idx2 i 0)) (int_to_float (ld_int count i)) ∧
      ld32 (update_centers centers positions count) (idx2 i 1)
        = fdiv (ld32 positions (idx2 i 1)) (int_to_float (ld_int count i))) ∧
    (∀ (acc_p acc_c centers : Buf),
      ld32 (position_reduce acc_p
          [cluster0_sum (f_lit 10 1) (f_lit 20 1), cluster0_sum (f_lit 5 1) (f_lit 0 1)])
          (idx2 0 0) = f_lit 15 1 ∧
      ld32 (position_reduce acc_p
          [cluster0_sum (f_lit 10 1) (f_lit 20 1), cluster0_sum (f_lit 5 1) (f_lit 0 1)])
          (idx2 0 1) = f_lit 20 1 ∧
      ld_int (count_reduce acc_c [cluster0_count 3, cluster0_count 1]) 0 = 4 ∧
      ld32 (update_centers centers
          (position_reduce acc_p
            [cluster0_sum (f_lit 10 1) (f_lit 20 1), cluster0_sum (f_lit 5 1) (f_lit 0 1)])
          (count_reduce acc_c [cluster0_count 3, cluster0_count 1])) (idx2 0 0)
        = f_lit 375 100 ∧
      ld32 (update_centers centers
          (position_reduce acc_p
            [cluster0_sum (f_lit 10 1) (f_lit 20 1), cluster0_sum (f_lit 5 1) (f_lit 0 1)])
          (count_reduce acc_c [cluster0_count 3, cluster0_count 1])) (idx2 0 1)
        = f_lit 5 1) ∧
    (∀ (env : Env) (ds dpn : Int) (st : MainState) (i : Nat), i < K →
      ld_int (env.count st.num_iteration.toNat) i ≠ 0 →
      ld32 (main_body env ds dpn st).centers (idx2 i 0)
        = fdiv (ld32 (env.positions st.num_iteration.toNat) (idx2 i 0))
            (int_to_float (ld_int (env.count st.num_iteration.toNat) i)) ∧
      ld32 (main_body env ds dpn st).centers (idx2 i 1)
        = fdiv (ld32 (env.positions st.num_iteration.toNat) (idx2 i 1))
            (int_to_float (ld_int (env.count st.num_iteration.toNat) i))) ∧
    (∀ (env : Env) (centers0 : Buf) (i : Nat), i < K → ld_int (env.count 9) i ≠ 0 →
      ld32 (main_handler env centers0).centers (idx2 i 0)
        = fdiv (ld32 (env.positions 9) (idx2 i 0)) (int_to_float (ld_int (env.count 9) i)) ∧
      ld32 (main_handler env centers0).centers (idx2 i 1)
        = fdiv (ld32 (env.positions 9) (idx2 i 1))
            (int_to_float (ld_int (env.count 9) i))) ∧
    (∀ (memget acc_p acc_c centers0 : Buf) (partials : List (Buf × Buf)) (ds dpn : Int)
        (st : MainState) (i : Nat), i < K →
      wrap32 ((partials.map (fun p => ld_int p.2 i)).sum) ≠ 0 →
      (ld32 (main_body (env_of_partials memget acc_p acc_c partials) ds dpn st).centers
          (idx2 i 0)
        = fdiv ((partials.map (fun p => ld32 p.1 (idx2 i 0))).foldl fadd 0)
            (int_to_float (wrap32 ((partials.map (fun p => ld_int p.2 i)).sum))) ∧
       ld32 (main_body (env_of_partials memget acc_p acc_c partials) ds dpn st).centers
          (idx2 i 1)
        = fdiv ((partials.map (fun p => ld32 p.1 (idx2 i 1))).foldl fadd 0)
            (int_to_float (wrap32 ((partials.map (fun p => ld_int p.2 i)).sum)))) ∧
      (ld32 (main_handler (env_of_partials memget acc_p acc_c partials) centers0).centers
          (idx2 i 0)
        = fdiv ((partials.map (fun p => ld32 p.1 (idx2 i 0))).foldl fadd 0)
            (int_to_float (wrap32 ((partials.map (fun p => ld_int p.2 i)).sum))) ∧
       ld32 (main_handler (env_of_partials memget acc_p acc_c partials) centers0).centers
          (idx2 i 1)
        = fdiv ((partials.map (fun p => ld32 p.1 (idx2 i 1))).foldl fadd 0)
            (int_to_float (wrap32 ((partials.map (fun p => ld_int p.2 i)).sum))))) ∧
    (∀ (memget acc_p acc_c centers0 : Buf) (ds dpn : Int) (st : MainState),
      ld32 (main_body (env_of_partials memget acc_p acc_c
          [(cluster0_sum (f_lit 10 1) (f_lit 20 1), cluster0_count 3),
           (cluster0_sum (f_lit 5 1) (f_lit 0 1), cluster0_count 1)]) ds dpn st).centers
          (idx2 0 0) = f_lit 375 100 ∧
      ld32 (main_body (env_of_partials memget acc_p acc_c
          [(cluster0_sum (f_lit 10 1) (f_lit 20 1), cluster0_count 3),
           (cluster0_sum (f_lit 5 1) (f_lit 0 1), cluster0_count 1)]) ds dpn st).centers
          (idx2 0 1) = f_lit 5 1 ∧
      ld32 (main_handler (env_of_partials memget acc_p acc_c
          [(cluster0_sum (f_lit 10 1) (f_lit 20 1), cluster0_count 3),
           (cluster0_sum (f_lit 5 1) (f_lit 0 1), cluster0_count 1)]) centers0).centers
          (idx2 0 0) = f_lit 375 100 ∧
      ld32 (main_handler (env_of_partials memget acc_p acc_c
          [(cluster0_sum (f_lit 10 1) (f_lit 20 1), cluster0_count 3),
           (cluster0_sum (f_lit 5 1) (f_lit 0 1), cluster0_count 1)]) centers0).centers
          (idx2 0 1) = f_lit 5 1) := by
  have hK : 0 < K := by decide
  refine ⟨?_, ?_, ?_, ?_, ?_, ?_, ?_⟩
  · intro acc_p acc_c partials i hi
    exact reduce_totals acc_p acc_c partials i hi
  · intro centers positions count i hi _
    exact (update_centers_spec centers positions count).1 i hi
  · intro acc_p acc_c centers
    obtain ⟨e0, e1, ec⟩ := example_totals acc_p acc_c
    obtain ⟨d0, d1⟩ := example_quotients
    obtain ⟨hu0, hu1⟩ := (update_centers_spec centers
      (position_reduce acc_p
        [cluster0_sum (f_lit 10 1) (f_lit 20 1), cluster0_sum (f_lit 5 1) (f_lit 0 1)])
      (count_reduce acc_c [cluster0_count 3, cluster0_count 1])).1 0 hK
    refine ⟨e0, e1, ec, ?_, ?_⟩
    · rw [hu0, e0, ec, d0]
    · rw [hu1, e1, ec, d1]
  · intro env ds dpn st i hi _
    exact main_body_centers_spec env ds dpn st i hi
  · intro env centers0 i hi _
    exact main_handler_centers_spec env centers0 i hi
  · intro memget acc_p acc_c centers0 partials ds dpn st i hi _
    obtain ⟨t0, t1, tc⟩ := reduce_totals acc_p acc_c partials i hi
    obtain ⟨b0, b1⟩ := main_body_centers_spec
      (env_of_partials memget acc_p acc_c partials) ds dpn st i hi
    obtain ⟨m0, m1⟩ := main_handler_centers_spec
      (env_of_partials memget acc_p acc_c partials) centers0 i hi
    rw [env_of_partials_positions, env_of_partials_count] at b0 b1 m0 m1
    rw [t0, tc] at b0 m0
    rw [t1, tc] at b1 m1
    exact ⟨⟨b0, b1⟩, ⟨m0, m1⟩⟩
  · intro memget acc_p acc_c centers0 ds dpn st
    obtain ⟨e0, e1, ec⟩ := example_totals acc_p acc_c
    obtain ⟨d0, d1⟩ := example_quotients
    obtain ⟨b0, b1⟩ := main_body_centers_spec
      (env_of_partials memget acc_p acc_c
        [(cluster0_sum (f_lit 10 1) (f_lit 20 1), cluster0_count 3),
         (cluster0_sum (f_lit 5 1) (f_lit 0 1), cluster0_count 1)]) ds dpn st 0 hK
    obtain ⟨m0, m1⟩ := main_handler_centers_spec
      (env_of_partials memget acc_p acc_c
        [(cluster0_sum (f_lit 10 1) (f_lit 20 1), cluster0_count 3),
         (cluster0_sum (f_lit 5 1) (f_lit 0 1), cluster0_count 1)]) centers0 0 hK
    rw [env_of_partials_positions, env_of_partials_count] at b0 b1 m0 m1
    simp only [List.map_cons, List.map_nil] at b0 b1 m0 m1
    rw [e0, ec, d0] at b0 m0
    rw [e1, ec, d1] at b1 m1
    exact ⟨b0, b1, m0, m1⟩

/-- C2 at a concrete input: the totals for the two partials of the worked example, and
the centroid of cluster 0 after a pass of the loop of `main_handler` entered with the
state `main_start`, read off the general statement. -/
theorem reduction_totals_and_centroid_update_witness :
    (0 < K ∧
      ld_int (count_reduce zeros
        ([(cluster0_sum (f_lit 10 1) (f_lit 20 1), cluster0_count 3),
          (cluster0_sum (f_lit 5 1) (f_lit 0 1), cluster0_count 1)].map Prod.snd)) 0
        = wrap32 (([(cluster0_sum (f_lit 10 1) (f_lit 20 1), cluster0_count 3),
          (cluster0_sum (f_lit 5 1) (f_lit 0 1), cluster0_count 1)].map
            (fun p => ld_int p.2 0)).sum)) ∧
    (wrap32 (([(cluster0_sum (f_lit 10 1) (f_lit 20 1), cluster0_count 3),
          (cluster0_sum (f_lit 5 1) (f_lit 0 1), cluster0_count 1)].map
            (fun p => ld_int p.2 0)).sum) ≠ 0 ∧
      ld32 (main_handler (env_of_partials zeros zeros zeros
          [(cluster0_sum (f_lit 10 1) (f_lit 20 1), cluster0_count 3),
           (cluster0_sum (f_lit 5 1) (f_lit 0 1), cluster0_count 1)]) zeros).centers
          (idx2 0 0)
        = fdiv (([(cluster0_sum (f_lit 10 1) (f_lit 20 1), cluster0_count 3),
            (cluster0_sum (f_lit 5 1) (f_lit 0 1), cluster0_count 1)].map
              (fun p => ld32 p.1 (idx2 0 0))).foldl fadd 0)
            (int_to_float (wrap32 (([(cluster0_sum (f_lit 10 1) (f_lit 20 1), cluster0_count 3),
              (cluster0_sum (f_lit 5 1) (f_lit 0 1), cluster0_count 1)].map
                (fun p => ld_int p.2 0)).sum)))) ∧
    ld32 (main_body (env_of_partials zeros zeros zeros
        [(cluster0_sum (f_lit 10 1) (f_lit 20 1), cluster0_count 3),
         (cluster0_sum (f_lit 5 1) (f_lit 0 1), cluster0_count 1)]) DATA_SIZE DATA_PER_NODE
        (main_start (env_of_partials zeros zeros zeros
          [(cluster0_sum (f_lit 10 1) (f_lit 20 1), cluster0_count 3),
           (cluster0_sum (f_lit 5 1) (f_lit 0 1), cluster0_count 1)]) DATA_SIZE DATA_PER_NODE
          zeros)).centers (idx2 0 0) = f_lit 375 100 :=
  ⟨⟨by decide,
    (reduction_totals_and_centroid_update.1 zeros zeros
      [(cluster0_sum (f_lit 10 1) (f_lit 20 1), cluster0_count 3),
       (cluster0_sum (f_lit 5 1) (f_lit 0 1), cluster0_count 1)] 0 (by decide)).2.2⟩,
   ⟨by decide,
    ((reduction_totals_and_centroid_update.2.2.2.2.2.1 zeros zeros zeros zeros
      [(cluster0_sum (f_lit 10 1) (f_lit 20 1), cluster0_count 3),
       (cluster0_sum (f_lit 5 1) (f_lit 0 1), cluster0_count 1)] DATA_SIZE DATA_PER_NODE
      (main_start (env_of_partials zeros zeros zeros
          [(cluster0_sum (f_lit 10 1) (f_lit 20 1), cluster0_count 3),
           (cluster0_sum (f_lit 5 1) (f_lit 0 1), cluster0_count 1)]) DATA_SIZE DATA_PER_NODE
          zeros) 0 (by decide) (by decide)).2).1⟩,
   (reduction_totals_and_centroid_update.2.2.2.2.2.2 zeros zeros zeros zeros
      DATA_SIZE DATA_PER_NODE _).1⟩


/-! ## C3: the centroid update has no guard for an empty cluster -/

theorem int_to_float_zero : int_to_float 0 = 0 := by decide

theorem zero_run_counts :
    (List.range K).map (fun c => ld_int (zero_run_env.count 0) c)
      = 10000000 :: List.replicate 99 0 := by
  have h : (List.range K).map (fun c => ld_int (zero_run_env.count 0) c)
      = (List.range K).map (fun c => if c = 0 then (10000000 : Int) else 0) :=
    List.map_congr_left (fun c hc => zero_run_count c (List.mem_range.mp hc))
  rw [h]
  decide

theorem zero_run_start_center (k : Nat) :
    ld32 (main_start zero_run_env DATA_SIZE DATA_PER_NODE zeros).centers k = 0 := by
  have hm : zero_run_env.memget = zeros := rfl
  rw [main_start_centers, hm, memcpy_zeros]
  rfl

/-- C3, the claim refuted in a run of the driver: every data point is `(0.0, 0.0)`, so
the `K` initial centers `main_handler` fetches are `(0.0, 0.0)` and each of the ten
`kmeans_handler` executions of the first iteration counts its `1000000` points in
cluster 0.  The count reduction delivers `[10000000, 0, ..., 0]`, whose entries sum to
`DATA_SIZE`; cluster 1 is empty with sum `+0.0`.  The first pass of the loop of
`main_handler` nevertheless divides for cluster 1: it assigns `centers[1][0]` the value
of `0.0 / (float)0`, a NaN, where `0.0` stood before. -/
theorem empty_cluster_not_guarded :
    (List.range K).map (fun c => ld_int (zero_run_env.count 0) c)
      = 10000000 :: List.replicate 99 0 ∧
    ((List.range K).map (fun c => ld_int (zero_run_env.count 0) c)).sum = DATA_SIZE ∧
    ld_int (zero_run_env.count 0) 1 = 0 ∧
    ld32 (zero_run_env.positions 0) (idx2 1 0) = 0 ∧
    (main_start zero_run_env DATA_SIZE DATA_PER_NODE zeros).num_iteration = 0 ∧
    ld32 (main_start zero_run_env DATA_SIZE DATA_PER_NODE zeros).centers (idx2 1 0) = 0 ∧
    (main_handler zero_run_env zeros).centers
      = (main_loop zero_run_env DATA_SIZE DATA_PER_NODE 9
          (main_body zero_run_env DATA_SIZE DATA_PER_NODE
            (main_start zero_run_env DATA_SIZE DATA_PER_NODE zeros))).centers ∧
    ld32 (main_body zero_run_env DATA_SIZE DATA_PER_NODE
        (main_start zero_run_env DATA_SIZE DATA_PER_NODE zeros)).centers (idx2 1 0)
      = fdiv 0 (int_to_float 0) ∧
    int_to_float 0 = 0 ∧
    f_isNaN (ld32 (main_body zero_run_env DATA_SIZE DATA_PER_NODE
        (main_start zero_run_env DATA_SIZE DATA_PER_NODE zeros)).centers (idx2 1 0)) = true ∧
    ld32 (main_body zero_run_env DATA_SIZE DATA_PER_NODE
        (main_start zero_run_env DATA_SIZE DATA_PER_NODE zeros)).centers (idx2 1 0)
      ≠ ld32 (main_start zero_run_env DATA_SIZE DATA_PER_NODE zeros).centers (idx2 1 0) := by
  have hc : ld_int (zero_run_env.count 0) 1 = 0 := zero_run_count 1 (by decide)
  have hp : ld32 (zero_run_env.positions 0) (idx2 1 0) = 0 :=
    zero_run_positions (idx2 1 0) (by decide) (by decide)
  have ho := zero_run_start_center (idx2 1 0)
  have hb := (main_body_centers_spec zero_run_env DATA_SIZE DATA_PER_NODE
    (main_start zero_run_env DATA_SIZE DATA_PER_NODE zeros) 1 (by decide)).1
  rw [main_start_num_iteration] at hb
  have ht : (0 : Int).toNat = 0 := rfl
  rw [ht, hp, hc] at hb
  have hnan : f_isNaN (fdiv 0 (int_to_float 0)) = true := by decide
  have hne : fdiv 0 (int_to_float 0) ≠ 0 := by decide
  refine ⟨zero_run_counts, ?_, hc, hp, rfl, ho, main_handler_first_pass _ _, hb,
    int_to_float_zero, ?_, ?_⟩
  · rw [zero_run_counts, List.sum_cons, List.sum_replicate, smul_zero, add_zero]
    rfl
  · rw [hb]
    exact hnan
  · rw [hb, ho]
    exact hne

/-- C3 as amended. For every reduction result (whatever the two `hpx_lco_get` deliver)
and every cluster index `i < K`, also when `count[i] == 0`, every pass of the loop of
`main_handler` assigns
`centers[i] = (positions[i][0] / (float)count[i], positions[i][1] / (float)count[i])`,
and the centers `main_handler` ends with are these quotients for its last iteration
(`num_iteration = 9`): there is no guard, and for `count[i] == 0` both coordinates are
the result of a `float` division by `+0.0`, a NaN or an infinity. -/
theorem empty_cluster_divides_by_zero (env : Env) (ds dpn : Int) (st : MainState)
    (centers0 : Buf) (i : Nat) (hi : i < K) :
    (ld32 (main_body env ds dpn st).centers (idx2 i 0)
        = fdiv (ld32 (env.positions st.num_iteration.toNat) (idx2 i 0))
            (int_to_float (ld_int (env.count st.num_iteration.toNat) i)) ∧
      ld32 (main_body env ds dpn st).centers (idx2 i 1)
        = fdiv (ld32 (env.positions st.num_iteration.toNat) (idx2 i 1))
            (int_to_float (ld_int (env.count st.num_iteration.toNat) i))) ∧
    (ld32 (main_handler env centers0).centers (idx2 i 0)
        = fdiv (ld32 (env.positions 9) (idx2 i 0)) (int_to_float (ld_int (env.count 9) i)) ∧
      ld32 (main_handler env centers0).centers (idx2 i 1)
        = fdiv (ld32 (env.positions 9) (idx2 i 1))
            (int_to_float (ld_int (env.count 9) i))) ∧
    int_to_float 0 = 0 ∧
    (ld_int (env.count st.num_iteration.toNat) i = 0 →
      (f_isNaN (ld32 (main_body env ds dpn st).centers (idx2 i 0)) = true ∨
        f_isInf (ld32 (main_body env ds dpn st).centers (idx2 i 0)) = true) ∧
      (f_isNaN (ld32 (main_body env ds dpn st).centers (idx2 i 1)) = true ∨
        f_isInf (ld32 (main_body env ds dpn st).centers (idx2 i 1)) = true)) ∧
    (ld_int (env.count 9) i = 0 →
      (f_isNaN (ld32 (main_handler env centers0).centers (idx2 i 0)) = true ∨
        f_isInf (ld32 (main_handler env centers0).centers (idx2 i 0)) = true) ∧
      (f_isNaN (ld32 (main_handler env centers0).centers (idx2 i 1)) = true ∨
        f_isInf (ld32 (main_handler env centers0).centers (idx2 i 1)) = true)) := by
  obtain ⟨b0, b1⟩ := main_body_centers_spec env ds dpn st i hi
  obtain ⟨m0, m1⟩ := main_handler_centers_spec env centers0 i hi
  refine ⟨⟨b0, b1⟩, ⟨m0, m1⟩, int_to_float_zero, ?_, ?_⟩
  · intro h0
    rw [b0, b1, h0, int_to_float_zero]
    exact ⟨fdiv_zero_divisor _, fdiv_zero_divisor _⟩
  · intro h0
    rw [m0, m1, h0, int_to_float_zero]
    exact ⟨fdiv_zero_divisor _, fdiv_zero_divisor _⟩

/-- C3 as amended, at a concrete input: the run in which every data point is
`(0.0, 0.0)`, at the empty cluster 1 in the first pass of the loop. -/
theorem empty_cluster_divides_by_zero_witness :
    1 < K ∧
    ld32 (main_body zero_run_env DATA_SIZE DATA_PER_NODE
        (main_start zero_run_env DATA_SIZE DATA_PER_NODE zeros)).centers (idx2 1 0)
      = fdiv (ld32 (zero_run_env.positions
            (main_start zero_run_env DATA_SIZE DATA_PER_NODE zeros).num_iteration.toNat)
            (idx2 1 0))
          (int_to_float (ld_int (zero_run_env.count
            (main_start zero_run_env DATA_SIZE DATA_PER_NODE zeros).num_iteration.toNat) 1)) :=
  ⟨by decide,
   (empty_cluster_divides_by_zero zero_run_env DATA_SIZE DATA_PER_NODE
      (main_start zero_run_env DATA_SIZE DATA_PER_NODE zeros) zeros 1 (by decide)).1.1⟩

end Kmeans
